import Mathlib

/-!
Verification of the pjpipe destriping core against its specification.

The development shallowly embeds the destriping code of the repository
(src/pjpipe/single_tile_destripe/single_tile_destripe_step.py,
src/pjpipe/multi_tile_destripe/multi_tile_destripe_step.py,
src/pjpipe/utils/utils.py and the legacy src/nircam_destriping.py)
into Lean.

Modelling conventions:
- Detector pixel values are modelled by the type V below, an idealised
  IEEE value: NaN, plus or minus infinity, or a finite rational.  The
  embedding keeps the exact NaN propagation and comparison semantics of
  IEEE arithmetic but uses exact rational arithmetic for finite values
  (no rounding, no overflow).  The claims under study are about sentinel
  propagation, masking, control flow and exact medians, none of which
  depend on rounding.
- 2-D numpy arrays become the structure Arr: a height, a width and a
  total value function.  Python basic slicing (including negative and
  clipped bounds) is embedded by explicit index resolution.
- External numerical kernels that are not part of the repository are
  either embedded from their documented behaviour (astropy
  sigma_clipped_stats, scipy median_filter, photutils detect_threshold
  and detect_sources, numpy reductions) or, where they are genuinely
  unmodellable (the vwpca robust factorization, the gappy least squares
  solve, the skimage Butterworth FFT filter, numpy random draws), passed
  in as function parameters over which the theorems quantify
  universally.
- Rational arithmetic is routed through mkRat-based helper functions so
  that every definition evaluates inside the kernel; bridge lemmas
  relate the helpers to the Mathlib field operations.
-/

/-- Executable rational addition via mkRat (kernel reducible). -/
def qadd (a b : ℚ) : ℚ := mkRat (a.num * b.den + b.num * a.den) (a.den * b.den)

/-- Executable rational subtraction via mkRat (kernel reducible). -/
def qsub (a b : ℚ) : ℚ := mkRat (a.num * b.den - b.num * a.den) (a.den * b.den)

/-- Executable rational multiplication via mkRat (kernel reducible). -/
def qmul (a b : ℚ) : ℚ := mkRat (a.num * b.num) (a.den * b.den)

/-- Executable rational division via mkRat (kernel reducible); division by zero gives zero here, and every use below guards the zero case separately. -/
def qdiv (a b : ℚ) : ℚ :=
  mkRat (a.num * b.den * (if b.num < 0 then -1 else 1)) (a.den * b.num.natAbs)

theorem qadd_eq (a b : ℚ) : qadd a b = a + b := by
  rw [qadd, Rat.mkRat_eq_div]
  push_cast
  conv_rhs => rw [← Rat.num_div_den a, ← Rat.num_div_den b]
  rw [div_add_div _ _ (by exact_mod_cast a.den_nz) (by exact_mod_cast b.den_nz)]
  ring_nf

theorem qsub_eq (a b : ℚ) : qsub a b = a - b := by
  rw [qsub, Rat.mkRat_eq_div]
  push_cast
  conv_rhs => rw [← Rat.num_div_den a, ← Rat.num_div_den b]
  rw [div_sub_div _ _ (by exact_mod_cast a.den_nz) (by exact_mod_cast b.den_nz)]
  ring_nf

theorem qmul_eq (a b : ℚ) : qmul a b = a * b := by
  rw [qmul, Rat.mkRat_eq_div]
  push_cast
  conv_rhs => rw [← Rat.num_div_den a, ← Rat.num_div_den b]
  rw [div_mul_div_comm]

theorem qdiv_eq (a b : ℚ) : qdiv a b = a / b := by
  rcases eq_or_ne b 0 with hb0 | hb0
  · subst hb0
    simp [qdiv]
  · have hbnum : b.num ≠ 0 := Rat.num_ne_zero.mpr hb0
    have hbnumQ : (b.num : ℚ) ≠ 0 := Int.cast_ne_zero.mpr hbnum
    have hadenQ : (a.den : ℚ) ≠ 0 := by exact_mod_cast a.den_nz
    have hbdenQ : (b.den : ℚ) ≠ 0 := by exact_mod_cast b.den_nz
    rcases lt_or_le b.num 0 with hneg | hpos
    · simp only [qdiv, if_pos hneg, Rat.mkRat_eq_div]
      push_cast [Int.cast_natAbs]
      rw [abs_of_nonpos (by exact_mod_cast le_of_lt hneg)]
      conv_rhs => rw [← Rat.num_div_den a, ← Rat.num_div_den b]
      field_simp
    · simp only [qdiv, if_neg (not_lt.mpr hpos), Rat.mkRat_eq_div]
      push_cast [Int.cast_natAbs]
      rw [abs_of_nonneg (by exact_mod_cast hpos)]
      conv_rhs => rw [← Rat.num_div_den a, ← Rat.num_div_den b]
      field_simp

/-- An idealised IEEE floating point value: NaN, one of the two infinities, or an exact finite rational. -/
inductive V where
  | nan : V
  | pinf : V
  | ninf : V
  | fin : ℚ → V
deriving DecidableEq

/-- IEEE addition on idealised values: NaN is absorbing and opposite infinities give NaN. -/
def V.add : V → V → V
  | .nan, _ => .nan
  | _, .nan => .nan
  | .pinf, .ninf => .nan
  | .ninf, .pinf => .nan
  | .pinf, _ => .pinf
  | _, .pinf => .pinf
  | .ninf, _ => .ninf
  | _, .ninf => .ninf
  | .fin a, .fin b => .fin (qadd a b)

/-- IEEE negation on idealised values. -/
def V.neg : V → V
  | .nan => .nan
  | .pinf => .ninf
  | .ninf => .pinf
  | .fin a => .fin (-a)

/-- IEEE subtraction on idealised values. -/
def V.sub (a b : V) : V := V.add a (V.neg b)

/-- IEEE multiplication on idealised values: NaN absorbing, infinity times zero gives NaN, signs combine. -/
def V.mul : V → V → V
  | .nan, _ => .nan
  | _, .nan => .nan
  | .pinf, .pinf => .pinf
  | .pinf, .ninf => .ninf
  | .ninf, .pinf => .ninf
  | .ninf, .ninf => .pinf
  | .pinf, .fin b => if b = 0 then .nan else if 0 < b then .pinf else .ninf
  | .fin a, .pinf => if a = 0 then .nan else if 0 < a then .pinf else .ninf
  | .ninf, .fin b => if b = 0 then .nan else if 0 < b then .ninf else .pinf
  | .fin a, .ninf => if a = 0 then .nan else if 0 < a then .ninf else .pinf
  | .fin a, .fin b => .fin (qmul a b)

/-- IEEE division on idealised values: finite over zero gives a signed infinity (zero over zero gives NaN), infinity over infinity gives NaN. -/
def V.div : V → V → V
  | .nan, _ => .nan
  | _, .nan => .nan
  | .pinf, .pinf => .nan
  | .pinf, .ninf => .nan
  | .ninf, .pinf => .nan
  | .ninf, .ninf => .nan
  | .pinf, .fin b => if 0 ≤ b then .pinf else .ninf
  | .ninf, .fin b => if 0 ≤ b then .ninf else .pinf
  | .fin _, .pinf => .fin 0
  | .fin _, .ninf => .fin 0
  | .fin a, .fin b =>
      if b = 0 then (if a = 0 then .nan else if 0 < a then .pinf else .ninf)
      else .fin (qdiv a b)

/-- Whether an idealised value is finite (mirrors numpy isfinite). -/
def V.isFinite : V → Bool
  | .fin _ => true
  | _ => false

/-- Whether an idealised value is NaN (mirrors numpy isnan). -/
def V.isNan : V → Bool
  | .nan => true
  | _ => false

/-- Whether a value compares equal to floating zero (IEEE comparison: NaN and infinities are not zero). -/
def V.isZero : V → Bool
  | .fin a => a = 0
  | _ => false

/-- IEEE strict less-than: false whenever either side is NaN. -/
def V.ltb : V → V → Bool
  | .nan, _ => false
  | _, .nan => false
  | .pinf, _ => false
  | .ninf, .ninf => false
  | .ninf, _ => true
  | .fin _, .pinf => true
  | .fin _, .ninf => false
  | .fin a, .fin b => a < b

/-- Total order used only for sorting finite and infinite values during medians (no NaN reaches it). -/
def V.sortLe : V → V → Bool
  | .nan, _ => true
  | _, .nan => false
  | .ninf, _ => true
  | _, .ninf => false
  | _, .pinf => true
  | .pinf, _ => false
  | .fin a, .fin b => a ≤ b

/-- Halve a value, used when a median averages the two middle elements. -/
def V.half : V → V
  | .nan => .nan
  | .pinf => .pinf
  | .ninf => .ninf
  | .fin a => .fin (qmul a (mkRat 1 2))

/-- Sort a list of rationals ascending (used by medians). -/
def sortQ (l : List ℚ) : List ℚ := List.insertionSort (fun a b => a ≤ b) l

/-- Sum of a list of rationals through the executable addition. -/
def qsum (l : List ℚ) : ℚ := l.foldl qadd 0

/-- Median of a list of rationals, numpy convention: the middle element, or the average of the two middle elements for even length.  Callers guard the empty case; it returns zero there. -/
def medQ (l : List ℚ) : ℚ :=
  let s := sortQ l
  let n := s.length
  if n = 0 then 0
  else if n % 2 = 1 then s.getD (n / 2) 0
  else qmul (qadd (s.getD (n / 2 - 1) 0) (s.getD (n / 2) 0)) (mkRat 1 2)

/-- Arithmetic mean of a list of rationals (zero on the empty list, guarded by callers). -/
def meanQ (l : List ℚ) : ℚ := qdiv (qsum l) (l.length : ℚ)

/-- Population variance of a list of rationals (the square of the numpy standard deviation). -/
def varQ (l : List ℚ) : ℚ :=
  let m := meanQ l
  qdiv (qsum (l.map (fun x => qmul (qsub x m) (qsub x m)))) (l.length : ℚ)

/-- The finite values of a list of idealised floats, in order.  Mirrors the implicit masking of invalid values (NaN and infinities) done by astropy sigma clipping. -/
def finites (l : List V) : List ℚ :=
  l.filterMap (fun x => match x with | .fin q => some q | _ => none)

/-- One astropy sigma-clip pass: keep the values within sigma times the standard deviation (about the mean) of the median.  The comparison is done on squares so it stays inside rational arithmetic. -/
def clipPass (sigma : ℚ) (l : List ℚ) : List ℚ :=
  if l.isEmpty then []
  else
    let med := medQ l
    let v := varQ l
    l.filter (fun x => qmul (qsub x med) (qsub x med) ≤ qmul (qmul sigma sigma) v)

/-- Iterate sigma-clip passes until no value is removed or the fuel runs out (astropy maxiters). -/
def clipIter (sigma : ℚ) : ℕ → List ℚ → List ℚ
  | 0, l => l
  | n + 1, l =>
      let l2 := clipPass sigma l
      if l2.length = l.length then l else clipIter sigma n l2

/-- Result triple of astropy sigma_clipped_stats: mean, median and standard deviation; we carry the variance (squared standard deviation) so everything stays rational. -/
structure CStats where
  mean : V
  med : V
  var : V
deriving DecidableEq

/-- Embedding of astropy sigma_clipped_stats on a flat list of values with a mask: invalid (non finite) and masked values are excluded, then the clip iterates; all NaN on empty input.  maxiters none iterates to convergence. -/
def clipStatsMasked (sigma : ℚ) (maxiters : Option ℕ) (l : List V) (m : List Bool) : CStats :=
  let vals := finites ((l.zip (m ++ List.replicate l.length false)).filterMap
    (fun p => if p.2 then none else some p.1))
  let fuel := match maxiters with
    | some k => k
    | none => vals.length + 1
  let c := clipIter sigma fuel vals
  if c.isEmpty then ⟨.nan, .nan, .nan⟩
  else ⟨.fin (meanQ c), .fin (medQ c), .fin (varQ c)⟩

/-- Sigma clipped stats of an unmasked list of values. -/
def clipStats (sigma : ℚ) (maxiters : Option ℕ) (l : List V) : CStats :=
  clipStatsMasked sigma maxiters l (List.replicate l.length false)

/-- Sort idealised values (no NaN among the inputs when used). -/
def sortV (l : List V) : List V := List.insertionSort (fun a b => V.sortLe a b) l

/-- Median of a list of idealised values with no NaN filtering (numpy median): NaN if empty, average of middles otherwise (infinities follow IEEE addition, so opposite infinities average to NaN, matching numpy). -/
def medV (l : List V) : V :=
  let s := sortV l
  let n := s.length
  if n = 0 then .nan
  else if n % 2 = 1 then s.getD (n / 2) .nan
  else V.half (V.add (s.getD (n / 2 - 1) .nan) (s.getD (n / 2) .nan))

/-- numpy nanmedian: drop NaN values, then take the numpy median; all NaN input gives NaN. -/
def nanmedianV (l : List V) : V := medV (l.filter (fun x => !x.isNan))

/-- numpy masked array median along an axis for one slice: masked entries are dropped; a fully masked slice yields NaN here (the callers replace the masked result by NaN explicitly); an unmasked NaN poisons the median exactly as in numpy median. -/
def maMedianV (l : List V) (m : List Bool) : V :=
  let kept := (l.zip (m ++ List.replicate l.length false)).filterMap
    (fun p => if p.2 then none else some p.1)
  if kept.isEmpty then .nan
  else if kept.any (fun x => x.isNan) then .nan
  else medV kept

/-- Absolute value of an idealised float. -/
def V.abs : V → V
  | .nan => .nan
  | .pinf => .pinf
  | .ninf => .pinf
  | .fin a => .fin |a|

/-- scipy median_abs_deviation with nan_policy omit: drop NaN, median of absolute deviations from the median. -/
def madV (l : List V) : V :=
  let kept := l.filter (fun x => !x.isNan)
  if kept.isEmpty then .nan
  else
    let med := medV kept
    medV (kept.map (fun x => V.abs (V.sub x med)))

/-- numpy nanpercentile with linear interpolation: drop NaN, sort, interpolate at rank p percent of (n - 1); NaN on empty input. -/
def nanpercentileV (p : ℚ) (l : List V) : V :=
  let kept := l.filter (fun x => !x.isNan)
  let s := sortV kept
  let n := s.length
  if n = 0 then .nan
  else
    let pos : ℚ := qmul (qdiv p 100) ((n : ℚ) - 1)
    let lo : ℕ := pos.floor.toNat
    let frac : ℚ := qsub pos (lo : ℚ)
    if frac = 0 then s.getD lo .nan
    else
      let a := s.getD lo .nan
      let b := s.getD (lo + 1) .nan
      V.add a (V.mul (.fin frac) (V.sub b a))

/-- Reflect boundary index resolution of scipy (pattern d c b a | a b c d | d c b a). -/
def reflIdx (n : ℕ) (k : ℤ) : ℕ :=
  if n = 0 then 0
  else
    let m := (k.emod (2 * n)).toNat
    if m < n then m else 2 * n - 1 - m

/-- scipy ndimage median_filter in one dimension with reflect boundary mode: the window of the given size centred with origin zero, taking the rank size over two order statistic of the window (the true median for the odd sizes used throughout). -/
def medianFilter1d (size : ℕ) (l : List V) : List V :=
  let n := l.length
  (List.range n).map (fun i =>
    let window := (List.range size).map
      (fun t => l.getD (reflIdx n ((i : ℤ) + (t : ℤ) - (size / 2 : ℕ))) .nan)
    (sortV window).getD (size / 2) .nan)

/-- A 2-D numpy array of idealised floats: height, width, total value function. -/
structure Arr where
  h : ℕ
  w : ℕ
  v : ℕ → ℕ → V

/-- Boolean masks and data quality planes are total functions over pixel coordinates. -/
def Mask : Type := ℕ → ℕ → Bool

/-- Integer data quality plane. -/
def DQ : Type := ℕ → ℕ → ℕ

/-- A boolean array with an explicit shape (the result type of the source mask builder). -/
structure BArr where
  h : ℕ
  w : ℕ
  m : ℕ → ℕ → Bool

/-- Row i of an array as a list. -/
def Arr.row (a : Arr) (i : ℕ) : List V := (List.range a.w).map (fun j => a.v i j)

/-- Column j of an array as a list. -/
def Arr.col (a : Arr) (j : ℕ) : List V := (List.range a.h).map (fun i => a.v i j)

/-- All values of the array in row major order (numpy ravel). -/
def Arr.allVals (a : Arr) : List V := (List.range a.h).flatMap (fun i => a.row i)

/-- Row i of a mask restricted to a given width. -/
def maskRow (m : Mask) (w i : ℕ) : List Bool := (List.range w).map (fun j => m i j)

/-- Column j of a mask restricted to a given height. -/
def maskCol (m : Mask) (h j : ℕ) : List Bool := (List.range h).map (fun i => m i j)

/-- All mask values in row major order for a given shape. -/
def maskAll (m : Mask) (h w : ℕ) : List Bool :=
  (List.range h).flatMap (fun i => maskRow m w i)

/-- Python index resolution for slice bounds: negative indices count from the end and out of range indices clip. -/
def pyIdx (i : ℤ) (n : ℕ) : ℕ :=
  if i < 0 then ((n : ℤ) + i).toNat else min i.toNat n

/-- An array whose every entry is the given constant, with the shape of the model array. -/
def Arr.constLike (a : Arr) (x : V) : Arr := ⟨a.h, a.w, fun _ _ => x⟩

/-- Pointwise binary operation, shape taken from the left operand (numpy broadcasting is made explicit elsewhere). -/
def Arr.map2 (f : V → V → V) (a b : Arr) : Arr := ⟨a.h, a.w, fun i j => f (a.v i j) (b.v i j)⟩

/-- Pointwise subtraction of arrays. -/
def Arr.subA (a b : Arr) : Arr := Arr.map2 V.sub a b

/-- Pointwise addition of arrays. -/
def Arr.addA (a b : Arr) : Arr := Arr.map2 V.add a b

/-- Basic 2-D slice a[r0:r1, c0:c1] with python semantics. -/
def Arr.slice (a : Arr) (r0 r1 c0 c1 : ℤ) : Arr :=
  let rs := pyIdx r0 a.h
  let re := max rs (pyIdx r1 a.h)
  let cs := pyIdx c0 a.w
  let ce := max cs (pyIdx c1 a.w)
  ⟨re - rs, ce - cs, fun i j => a.v (rs + i) (cs + j)⟩

/-- Slice of a mask with python semantics relative to the shape of the sliced data. -/
def maskSlice (m : Mask) (h w : ℕ) (r0 _r1 c0 _c1 : ℤ) : Mask :=
  fun i j => m (pyIdx r0 h + i) (pyIdx c0 w + j)

/-- Assignment a[r0:r1, c0:c1] = src with python slice semantics (shapes agree at every use site, as in the source). -/
def Arr.setSlice (a : Arr) (r0 r1 c0 c1 : ℤ) (src : Arr) : Arr :=
  let rs := pyIdx r0 a.h
  let re := max rs (pyIdx r1 a.h)
  let cs := pyIdx c0 a.w
  let ce := max cs (pyIdx c1 a.w)
  ⟨a.h, a.w, fun i j =>
    if rs ≤ i ∧ i < re ∧ cs ≤ j ∧ j < ce then src.v (i - rs) (j - cs) else a.v i j⟩

/-- In place augmented assignment a[r0:r1, c0:c1] += d for a scalar d. -/
def Arr.addScalarSlice (a : Arr) (r0 r1 c0 c1 : ℤ) (d : V) : Arr :=
  let rs := pyIdx r0 a.h
  let re := max rs (pyIdx r1 a.h)
  let cs := pyIdx c0 a.w
  let ce := max cs (pyIdx c1 a.w)
  ⟨a.h, a.w, fun i j =>
    if rs ≤ i ∧ i < re ∧ cs ≤ j ∧ j < ce then V.add (a.v i j) d else a.v i j⟩

/-- Set the entries selected by a boolean condition to a constant (numpy boolean indexing assignment). -/
def Arr.setWhere (a : Arr) (p : ℕ → ℕ → Bool) (x : V) : Arr :=
  ⟨a.h, a.w, fun i j => if p i j then x else a.v i j⟩

/-- Subtract a scalar from every entry. -/
def Arr.subScalar (a : Arr) (d : V) : Arr := ⟨a.h, a.w, fun i j => V.sub (a.v i j) d⟩

/-- Add a column vector broadcast across columns (numpy med[:, None]). -/
def Arr.addColVec (a : Arr) (cv : ℕ → V) : Arr := ⟨a.h, a.w, fun i j => V.add (a.v i j) (cv i)⟩

/-- Add a row vector broadcast across rows (numpy med[None, :]). -/
def Arr.addRowVec (a : Arr) (rv : ℕ → V) : Arr := ⟨a.h, a.w, fun i j => V.add (a.v i j) (rv j)⟩

/-- Sigma clipped statistics over the whole array with a mask (astropy sigma_clipped_stats without axis). -/
def clipStats2d (sigma : ℚ) (maxiters : Option ℕ) (a : Arr) (m : Mask) : CStats :=
  clipStatsMasked sigma maxiters a.allVals (maskAll m a.h a.w)

/-- Sigma clipped median per row (astropy sigma_clipped_stats with axis 1, component 1 of the triple). -/
def clipMedPerRow (sigma : ℚ) (maxiters : Option ℕ) (a : Arr) (m : Mask) : ℕ → V :=
  fun i => (clipStatsMasked sigma maxiters (a.row i) (maskRow m a.w i)).med

/-- Sigma clipped median per column (astropy sigma_clipped_stats with axis 0, component 1 of the triple). -/
def clipMedPerCol (sigma : ℚ) (maxiters : Option ℕ) (a : Arr) (m : Mask) : ℕ → V :=
  fun j => (clipStatsMasked sigma maxiters (a.col j) (maskCol m a.h j)).med

/-- Data quality bit mask of utils.get_dq_bit_mask: the dq plane is cast to uint8 and tested against the DO_NOT_USE plus NON_SCIENCE bit pattern 513. -/
def getDqBitMask (dq : DQ) : Mask :=
  fun i j => decide ((dq i j % 256) &&& 513 ≠ 0)

/-- get_dq_mask of the single tile destripe step: dq bits, non finite science or error values, and exact zero science values are all bad. -/
def getDqMask (data err : Arr) (dq : DQ) : Mask :=
  fun i j =>
    getDqBitMask dq i j || !(data.v i j).isFinite || !(err.v i j).isFinite || (data.v i j).isZero

/-- The sigma clipped detection threshold of photutils detect_threshold: clipped mean plus nsigma clipped standard deviations, carried as mean and variance to stay rational. -/
structure Thresh where
  mean : V
  var : V
  nsig : ℚ

/-- photutils detect_threshold: background and error from sigma clipped statistics of the (masked) data, threshold equal to mean plus nsigma times standard deviation. -/
def detectThreshold (data : Arr) (m : Mask) (nsigma clipSigma : ℚ) (iters : Option ℕ) : Thresh :=
  let st := clipStats2d clipSigma iters data m
  ⟨st.mean, st.var, nsigma⟩

/-- Strict comparison of a pixel against the threshold; false on NaN, decided on squares to stay rational (valid because nsigma and the variance are nonnegative). -/
def Thresh.exceeds (t : Thresh) (x : V) : Bool :=
  match x, t.mean, t.var with
  | .fin q, .fin m, .fin v =>
      decide (m < q) && decide (qmul (qmul t.nsig t.nsig) v < qmul (qsub q m) (qsub q m))
  | _, _, _ => false

/-- The list of pixel coordinates strictly above the detection threshold. -/
def abovePix (data : Arr) (t : Thresh) : List (ℕ × ℕ) :=
  ((List.range data.h).flatMap (fun i => (List.range data.w).map (fun j => (i, j)))).filter
    (fun p => t.exceeds (data.v p.1 p.2))

/-- Eight connectivity adjacency of two pixels (the photutils default). -/
def adj8 (p q : ℕ × ℕ) : Bool :=
  (p ≠ q) && ((p.1 : ℤ) - q.1).natAbs ≤ 1 && ((p.2 : ℤ) - q.2).natAbs ≤ 1

/-- One growth step of a connected component inside the set of above threshold pixels. -/
def growComp (above s : List (ℕ × ℕ)) : List (ℕ × ℕ) :=
  above.filter (fun p => s.contains p || s.any (fun q => adj8 p q))

/-- Iterated growth with fuel. -/
def iterGrow (above : List (ℕ × ℕ)) : ℕ → List (ℕ × ℕ) → List (ℕ × ℕ)
  | 0, s => s
  | n + 1, s => iterGrow above n (growComp above s)

/-- The connected component of a pixel among the above threshold pixels (fuel bounded fixpoint, enough iterations to absorb the whole grid). -/
def compOf (above : List (ℕ × ℕ)) (p : ℕ × ℕ) : List (ℕ × ℕ) :=
  iterGrow above above.length [p]

/-- photutils detect_sources: connected components of pixels strictly above threshold with at least npixels members; none when no component qualifies. -/
def detectSources (data : Arr) (t : Thresh) (npixels : ℕ) : Option Mask :=
  let ab := abovePix data t
  let keep := ab.filter (fun p => npixels ≤ (compOf ab p).length)
  if keep.isEmpty then none
  else some (fun i j => keep.contains (i, j))

/-- Binary dilation by a square footprint of the given size (the photutils make_source_mask dilation). -/
def dilateSq (h w size : ℕ) (m : Mask) : Mask :=
  fun i j =>
    (List.range size).any (fun a =>
      (List.range size).any (fun b =>
        let ii := (i : ℤ) + (a : ℤ) - (size / 2 : ℕ)
        let jj := (j : ℤ) + (b : ℤ) - (size / 2 : ℕ)
        decide (0 ≤ ii) && decide (ii < (h : ℤ)) && decide (0 ≤ jj) && decide (jj < (w : ℤ)) &&
          m ii.toNat jj.toNat))

/-- utils.make_source_mask of the pjpipe repository: sigma clipped detection threshold (clip sigma equal to nsigma), source segmentation, square dilation; an all false mask of the input shape when no source is detected. -/
def makeSourceMask (data : Arr) (m : Mask) (nsigma : ℚ) (npixels dilateSize : ℕ)
    (sigclipIters : Option ℕ) : BArr :=
  let t := detectThreshold data m nsigma nsigma sigclipIters
  match detectSources data t npixels with
  | none => ⟨data.h, data.w, fun _ _ => false⟩
  | some s => ⟨data.h, data.w, dilateSq data.h data.w dilateSize s⟩

/-- The legacy photutils make_source_mask used by nircam_destriping (fixed clip sigma 3 and five clip iterations inside detect_threshold). -/
def makeSourceMaskLegacy (data : Arr) (nsigma : ℚ) (npixels dilateSize : ℕ) : BArr :=
  let t := detectThreshold data (fun _ _ => false) nsigma 3 (some 5)
  match detectSources data t npixels with
  | none => ⟨data.h, data.w, fun _ _ => false⟩
  | some s => ⟨data.h, data.w, dilateSq data.h data.w dilateSize s⟩

/-- Rational from a natural number through mkRat (kernel friendly, avoids the cast instances). -/
def qofNat (n : ℕ) : ℚ := mkRat n 1

/-- An input exposure: science, error and data quality planes, plus the subarray detection result (the source tests whether the SUBARRAY header name contains the substring sub). -/
structure Frame where
  data : Arr
  err : Arr
  dq : DQ
  isSub : Bool

/-- Configuration of SingleTileDestripeStep (the constructor arguments that the destriping math reads). -/
structure Cfg where
  quadrants : Bool
  verticalSubtraction : Bool
  destripingMethod : String
  filterDiffuse : Bool
  sigma : ℚ
  npixels : ℕ
  dilateSize : ℕ
  maxIters : ℕ
  medianFilterScales : List ℕ
  pcaComponents : ℕ
  pcaReconstructComponents : ℕ

/-- External kernels that live outside the repository (the vwpca robust factorization with its numpy random draws, the gappy least squares reconstruction, the Butterworth FFT filter path, the pickle loader) passed in as opaque data so every theorem below quantifies over them. -/
structure ExtK (E : Type) where
  vwRun : ℕ → List (List V) → List (List V) → E
  rollShifts : List ℕ
  shufflePerm : List ℕ
  recPca : ℕ → E → Arr → Arr → Arr
  butterFn : Arr → CStats → Mask → (Arr × Mask)
  loadPca : String → E
  fs : List String

/-- Pointwise negation of an array. -/
def Arr.negA (a : Arr) : Arr := ⟨a.h, a.w, fun i j => V.neg (a.v i j)⟩

/-- In place slice addition a[r0:r1, c0:c1] += src. -/
def Arr.addSliceArr (a : Arr) (r0 r1 c0 c1 : ℤ) (src : Arr) : Arr :=
  let rs := pyIdx r0 a.h
  let re := max rs (pyIdx r1 a.h)
  let cs := pyIdx c0 a.w
  let ce := max cs (pyIdx c1 a.w)
  ⟨a.h, a.w, fun i j =>
    if rs ≤ i ∧ i < re ∧ cs ≤ j ∧ j < ce then V.add (a.v i j) (src.v (i - rs) (j - cs))
    else a.v i j⟩

/-- Subtract a row vector broadcast across rows. -/
def Arr.subRowVec (a : Arr) (rv : ℕ → V) : Arr := ⟨a.h, a.w, fun i j => V.sub (a.v i j) (rv j)⟩

/-- Subtract a column vector broadcast across columns. -/
def Arr.subColVec (a : Arr) (cv : ℕ → V) : Arr := ⟨a.h, a.w, fun i j => V.sub (a.v i j) (cv i)⟩

/-- nanmedian of a whole array. -/
def nanmedianAll (a : Arr) : V := nanmedianV a.allVals

/-- Pointwise or of masks. -/
def maskOr (m n : Mask) : Mask := fun i j => m i j || n i j

/-- SingleTileDestripeStep.get_filter_diffuse: measure clipped statistics, apply the (external) Butterworth filter, then build a strict positive source mask and a dilated negative mask on the filtered data and join them with the data quality mask. -/
def getFilterDiffuse {E : Type} (cfg : Cfg) (ex : ExtK E) (data : Arr) (m dqm : Mask) :
    Arr × Mask :=
  let st := clipStats2d cfg.sigma (some cfg.maxIters) data m
  let bf := ex.butterFn data st dqm
  let dataF := bf.1
  let maskPos := makeSourceMask dataF dqm cfg.sigma 10 cfg.dilateSize (some cfg.maxIters)
  let maskNeg := makeSourceMask (Arr.negA dataF) (maskOr dqm maskPos.m) cfg.sigma cfg.npixels
    11 (some cfg.maxIters)
  (dataF, maskOr (maskOr maskPos.m maskNeg.m) dqm)

/-- One boundary pass of SingleTileDestripeStep.level_data: set the data quality flagged pixels of both 20 column comparison strips to NaN (the python views mutate the working array), take per row nanmedians of the strips, sigma clip the per row differences to a single median offset, and add it to the whole of quadrant i plus one. -/
def levelBoundary (qs : ℕ) (dqMask : Mask) (i : ℕ) (d : Arr) : Arr :=
  let b1cs := pyIdx (i * qs) d.w
  let b1ce := max b1cs (pyIdx ((i + 1) * qs) d.w)
  let bw1 := b1ce - b1cs
  let s1cs := b1cs + pyIdx ((qs : ℤ) - 20) bw1
  let s1ce := b1ce
  let b2cs := pyIdx ((i + 1) * qs) d.w
  let b2ce := max b2cs (pyIdx ((i + 2) * qs) d.w)
  let bw2 := b2ce - b2cs
  let s2cs := b2cs
  let s2ce := b2cs + min 20 bw2
  let d1 := d.setWhere (fun r c => dqMask r c && decide (s1cs ≤ c) && decide (c < s1ce)) .nan
  let d2 := d1.setWhere (fun r c => dqMask r c && decide (s2cs ≤ c) && decide (c < s2ce)) .nan
  let med1 := fun r => nanmedianV (((List.range d.w).filter
    (fun c => decide (s1cs ≤ c) && decide (c < s1ce))).map (fun c => d2.v r c))
  let med2 := fun r => nanmedianV (((List.range d.w).filter
    (fun c => decide (s2cs ≤ c) && decide (c < s2ce))).map (fun c => d2.v r c))
  let diff := (List.range d.h).map (fun r => V.sub (med1 r) (med2 r))
  let delta := (clipStats 3 none diff).med
  d2.addScalarSlice 0 d.h ((i + 1) * qs) ((i + 2) * qs) delta

/-- SingleTileDestripeStep.level_data: quadrant size is a quarter of the width, the data quality mask is taken from the original image, then the three internal boundaries are processed in order. -/
def levelData (fr : Frame) : Arr :=
  let qs := fr.data.w / 4
  let dqMask := getDqMask fr.data fr.err fr.dq
  [0, 1, 2].foldl (fun d i => levelBoundary qs dqMask i d) fr.data

/-- One scale pass of the vertical (column) median filter subtraction: masked median per column, masked or non finite entries replaced by zero, high pass residual against the reflected median filter, subtracted from the data and accumulated. -/
def verticalScalePass (m : Mask) (scale : ℕ) : Arr × Arr → Arr × Arr :=
  fun s =>
    let data := s.1
    let vert := s.2
    let medRaw := fun j => maMedianV (data.col j) (maskCol m data.h j)
    let medFix := fun j => if (medRaw j).isFinite then medRaw j else .fin 0
    let medL := (List.range data.w).map medFix
    let noiseL := (medL.zip (medianFilter1d scale medL)).map (fun p => V.sub p.1 p.2)
    let noise := fun j => noiseL.getD j .nan
    (data.subRowVec noise, vert.addRowVec noise)

/-- SingleTileDestripeStep.run_vertical_subtraction: zeros to NaN, subtract the running model, build source and data quality masks, trim the four reference pixels unless the exposure is a subarray, optionally filter diffuse emission, run the multi scale column pass, recentre by the plain nanmedian, and place the result back into the full frame. -/
def runVerticalSubtraction {E : Type} (cfg : Cfg) (ex : ExtK E) (fr : Frame) (prev : Arr) :
    Arr :=
  let data0 := fr.data.setWhere (fun i j => (fr.data.v i j).isZero) .nan
  let data1 := data0.subA prev
  let srcMask := makeSourceMask data1 (fun _ _ => false) cfg.sigma cfg.npixels cfg.dilateSize
    (some cfg.maxIters)
  let dqm := getDqMask data1 fr.err fr.dq
  let mask0 := maskOr srcMask.m dqm
  let data2 := if fr.isSub then data1 else data1.slice 4 (-4) 4 (-4)
  let mask2 : Mask := if fr.isSub then mask0
    else maskSlice mask0 data1.h data1.w 4 (-4) 4 (-4)
  let dqm2 : Mask := if fr.isSub then dqm else maskSlice dqm data1.h data1.w 4 (-4) 4 (-4)
  let fd := if cfg.filterDiffuse then getFilterDiffuse cfg ex data2 mask2 dqm2
    else (data2, mask2)
  let data3 := fd.1
  let mask3 := fd.2
  let res := cfg.medianFilterScales.foldl (fun s scale => verticalScalePass mask3 scale s)
    (data3, data3.constLike (.fin 0))
  let vert := res.2.subScalar (nanmedianAll res.2)
  let full := data0.constLike (.fin 0)
  if fr.isSub then full.addSliceArr 0 full.h 0 full.w vert
  else full.addSliceArr 4 (-4) 4 (-4) vert

/-- The shared front half of SingleTileDestripeStep.run_row_median: zeros to NaN, subtract the running model, mask sources (default five clip iterations inside the mask builder) and bad data quality, optionally filter diffuse emission; returns the working data and mask. -/
def rowMedianParts {E : Type} (cfg : Cfg) (ex : ExtK E) (fr : Frame) (prev : Arr) :
    Arr × Mask :=
  let data0 := fr.data.setWhere (fun i j => (fr.data.v i j).isZero) .nan
  let data1 := data0.subA prev
  let srcMask := makeSourceMask data1 (fun _ _ => false) cfg.sigma cfg.npixels cfg.dilateSize
    (some 5)
  let dqm := getDqMask data1 fr.err fr.dq
  let mask0 := maskOr srcMask.m dqm
  if cfg.filterDiffuse then getFilterDiffuse cfg ex data1 mask0 dqm
  else (data1, mask0)

/-- The per row sigma clipped median profile of the row median stage (on the masked working data of run_row_median). -/
def rowMedianProfile {E : Type} (cfg : Cfg) (ex : ExtK E) (fr : Frame) (prev : Arr) :
    ℕ → V :=
  fun r => clipMedPerRow cfg.sigma (some cfg.maxIters) (rowMedianParts cfg ex fr prev).1
    (rowMedianParts cfg ex fr prev).2 r

/-- The row median profile as a list over the rows of the working data. -/
def rowMedianProfileList {E : Type} (cfg : Cfg) (ex : ExtK E) (fr : Frame) (prev : Arr) :
    List V :=
  (List.range (rowMedianParts cfg ex fr prev).1.h).map (rowMedianProfile cfg ex fr prev)

/-- SingleTileDestripeStep.run_row_median: on the masked working data take sigma clipped medians along rows, by quadrant when requested, each recentred by the plain nanmedian of its median profile. -/
def runRowMedian {E : Type} (cfg : Cfg) (ex : ExtK E) (fr : Frame) (prev : Arr)
    (quadrants : Bool) : Arr :=
  let fd := rowMedianParts cfg ex fr prev
  let data := fd.1
  let mask := fd.2
  let zeroModel := (fr.data.setWhere (fun i j => (fr.data.v i j).isZero) .nan).subA prev
    |>.constLike (.fin 0)
  if quadrants then
    let qs := data.w / 4
    (List.range 4).foldl (fun model i =>
      let dataQ := data.slice 0 data.h (i * qs) ((i + 1) * qs)
      let maskQ := maskSlice mask data.h data.w 0 data.h (i * qs) ((i + 1) * qs)
      let meds := fun r => clipMedPerRow cfg.sigma (some cfg.maxIters) dataQ maskQ r
      let medsL := (List.range dataQ.h).map meds
      let m1 := Arr.addSliceArr model 0 model.h (i * qs) ((i + 1) * qs)
        ⟨dataQ.h, dataQ.w, fun r _ => meds r⟩
      m1.addScalarSlice 0 m1.h (i * qs) ((i + 1) * qs) (V.neg (nanmedianV medsL))
      ) zeroModel
  else
    let meds := fun r => clipMedPerRow cfg.sigma (some cfg.maxIters) data mask r
    let medsL := (List.range data.h).map meds
    let m1 := zeroModel.addColVec meds
    m1.subScalar (nanmedianV medsL)

/-- Pointwise map over an array. -/
def Arr.mapV (a : Arr) (f : V → V) : Arr := ⟨a.h, a.w, fun i j => f (a.v i j)⟩

/-- Transpose of an array. -/
def Arr.transp (a : Arr) : Arr := ⟨a.w, a.h, fun i j => a.v j i⟩

/-- One scale pass of run_median_filter for one (possibly whole frame) block: masked row medians, non finite entries replaced by the given fallback, high pass residual against the reflected median filter of the given scale, subtracted from the block and accumulated into the model region. -/
def medianFilterScalePass (m : Mask) (useQuadFallback : Bool) (scale : ℕ) :
    Arr × (List V) → Arr × (List V) :=
  fun s =>
    let data := s.1
    let acc := s.2
    let medRaw := fun r => maMedianV (data.row r) (maskRow m data.w r)
    let medRawL := (List.range data.h).map medRaw
    let fallback := if useQuadFallback then nanmedianV medRawL else .fin 0
    let medFix := fun r => if (medRaw r).isFinite then medRaw r else fallback
    let medL := (List.range data.h).map medFix
    let noiseL := (medL.zip (medianFilter1d scale medL)).map (fun p => V.sub p.1 p.2)
    let noise := fun r => noiseL.getD r .nan
    (data.subColVec noise, (acc.zip noiseL).map (fun p => V.add p.1 p.2))

/-- SingleTileDestripeStep.run_median_filter with its default use_mask: zeros to NaN, subtract the running model, build source (default five clip iterations) and data quality masks, optionally filter diffuse emission, then per quadrant (or whole frame) run the multi scale row median filter pass; the per scale residuals accumulate into the model with no recentring step.  In the quadrant branch non finite row medians fall back to the nanmedian of the profile, in the whole frame branch to zero. -/
def runMedianFilter {E : Type} (cfg : Cfg) (ex : ExtK E) (fr : Frame) (prev : Arr)
    (quadrants : Bool) : Arr :=
  let data0 := fr.data.setWhere (fun i j => (fr.data.v i j).isZero) .nan
  let data1 := data0.subA prev
  let srcMask := makeSourceMask data1 (fun _ _ => false) cfg.sigma cfg.npixels cfg.dilateSize
    (some 5)
  let dqm := getDqMask data1 fr.err fr.dq
  let mask0 := maskOr srcMask.m dqm
  let fd := if cfg.filterDiffuse then getFilterDiffuse cfg ex data1 mask0 dqm
    else (data1, mask0)
  let data := fd.1
  let mask := fd.2
  let zeroModel := data1.constLike (.fin 0)
  if quadrants then
    let qs := data.w / 4
    (List.range 4).foldl (fun model i =>
      let dataQ := data.slice 0 data.h (i * qs) ((i + 1) * qs)
      let maskQ := maskSlice mask data.h data.w 0 data.h (i * qs) ((i + 1) * qs)
      let res := cfg.medianFilterScales.foldl
        (fun s scale => medianFilterScalePass maskQ true scale s)
        (dataQ, List.replicate dataQ.h (.fin 0))
      model.addSliceArr 0 model.h (i * qs) ((i + 1) * qs)
        ⟨dataQ.h, dataQ.w, fun r _ => res.2.getD r .nan⟩
      ) zeroModel
  else
    let res := cfg.medianFilterScales.foldl
      (fun s scale => medianFilterScalePass mask false scale s)
      (data, List.replicate data.h (.fin 0))
    zeroModel.addColVec (fun r => res.2.getD r .nan)

/-- The quadrant column slice of run_remstriping and run_pca_denoise on the trimmed frame: hard coded boundary offsets for full frames (0 to quadrant size minus 4, then shifted interior blocks, then columns 1532 to 2040), plain quarters for subarrays. -/
def quadSliceBounds (isSub : Bool) (qs i : ℕ) : ℤ × ℤ :=
  if isSub then ((i * qs : ℕ), ((i + 1) * qs : ℕ))
  else if i = 0 then (0, (qs : ℤ) - 4)
  else if i = 3 then (1532, 2040)
  else ((i * qs : ℤ) - 4, ((i + 1) * qs : ℤ) - 4)

/-- SingleTileDestripeStep.run_remstriping: zeros to NaN, subtract the running model, mask, trim reference pixels on full frames, optionally filter, then per quadrant collapse sigma clipped medians along rows (recentred by the plain nanmedian) followed by columns (recentred likewise), or a single row collapse when quadrants are off; finally write the trimmed model back into the full frame. -/
def runRemstriping {E : Type} (cfg : Cfg) (ex : ExtK E) (fr : Frame) (prev : Arr)
    (isSub quadrants : Bool) : Arr :=
  let data0 := fr.data.setWhere (fun i j => (fr.data.v i j).isZero) .nan
  let data1 := data0.subA prev
  let qs := data1.w / 4
  let srcMask := makeSourceMask data1 (fun _ _ => false) cfg.sigma cfg.npixels cfg.dilateSize
    (some cfg.maxIters)
  let dqm := getDqMask data1 fr.err fr.dq
  let mask0 := maskOr srcMask.m dqm
  let data2 := if isSub then data1 else data1.slice 4 (-4) 4 (-4)
  let mask2 : Mask := if isSub then mask0 else maskSlice mask0 data1.h data1.w 4 (-4) 4 (-4)
  let dqm2 : Mask := if isSub then dqm else maskSlice dqm data1.h data1.w 4 (-4) 4 (-4)
  let fd := if cfg.filterDiffuse then getFilterDiffuse cfg ex data2 mask2 dqm2
    else (data2, mask2)
  let data := fd.1
  let mask := fd.2
  let trimmed0 := data.constLike (.fin 0)
  let trimmed :=
    if quadrants then
      (List.range 4).foldl (fun tm i =>
        let b := quadSliceBounds isSub qs i
        let dataQ := data.slice 0 data.h b.1 b.2
        let maskQ := maskSlice mask data.h data.w 0 data.h b.1 b.2
        let medX := fun r => clipMedPerRow cfg.sigma (some cfg.maxIters) dataQ maskQ r
        let medXL := (List.range dataQ.h).map medX
        let xSt : Arr := ⟨dataQ.h, dataQ.w, fun r _ => V.sub (medX r) (nanmedianV medXL)⟩
        let tm1 := tm.addSliceArr 0 tm.h b.1 b.2 xSt
        let dataQ1 := dataQ.subA xSt
        let medY := fun c => clipMedPerCol cfg.sigma (some cfg.maxIters) dataQ1 maskQ c
        let medYL := (List.range dataQ.w).map medY
        let ySt : Arr := ⟨dataQ.h, dataQ.w, fun _ c => V.sub (medY c) (nanmedianV medYL)⟩
        tm1.addSliceArr 0 tm1.h b.1 b.2 ySt
        ) trimmed0
    else
      let meds := fun r => clipMedPerRow cfg.sigma (some cfg.maxIters) data mask r
      let medsL := (List.range data.h).map meds
      (trimmed0.addColVec meds).subScalar (nanmedianV medsL)
  let full := data1.constLike (.fin 0)
  if isSub then trimmed
  else full.setSlice 4 (-4) 4 (-4) trimmed

/-- The argsort order on column indices keyed by mask coverage (ties broken by index, one fixed choice among the unspecified numpy tie orders). -/
def argsortRel (key : ℕ → ℕ) (a b : ℕ) : Prop :=
  key a < key b ∨ (key a = key b ∧ a ≤ b)

instance (key : ℕ → ℕ) : DecidableRel (argsortRel key) := fun a b => by
  unfold argsortRel
  infer_instance

instance (key : ℕ → ℕ) : IsTotal ℕ (argsortRel key) := by
  constructor
  intro a b
  rcases lt_trichotomy (key a) (key b) with h | h | h
  · exact Or.inl (Or.inl h)
  · rcases le_total a b with hab | hab
    · exact Or.inl (Or.inr ⟨h, hab⟩)
    · exact Or.inr (Or.inr ⟨h.symm, hab⟩)
  · exact Or.inr (Or.inl h)

instance (key : ℕ → ℕ) : IsTrans ℕ (argsortRel key) := by
  constructor
  intro a b c hab hbc
  rcases hab with h1 | ⟨h1, h1b⟩
  · rcases hbc with h2 | ⟨h2, _⟩
    · exact Or.inl (h1.trans h2)
    · exact Or.inl (h2 ▸ h1)
  · rcases hbc with h2 | ⟨h2, h2b⟩
    · exact Or.inl (h1 ▸ h2)
    · exact Or.inr ⟨h1.trans h2, h1b.trans h2b⟩

/-- Indices of the columns sorted by ascending mask coverage (np.argsort of the per column mask sums). -/
def argsortIdx (key : ℕ → ℕ) (w : ℕ) : List ℕ :=
  List.insertionSort (argsortRel key) (List.range w)

/-- Per column count of masked entries (np.sum of the boolean mask along axis 0). -/
def maskSumCol (mask : Mask) (hgt c : ℕ) : ℕ :=
  ((List.range hgt).filter (fun r => mask r c)).length

/-- The number of training columns of fit_robust_pca: the count of columns whose mask fraction is below one quarter, floored at half of all columns. -/
def pcaNCols (mask : Mask) (hgt wid : ℕ) : ℕ :=
  let minNCols := wid / 2
  let lowMasked := ((List.range wid).filter
    (fun c => qofNat (maskSumCol mask hgt c) < qmul (mkRat 1 4) (qofNat hgt))).length
  max lowMasked minNCols

/-- The training column indices of fit_robust_pca: the n lowest mask coverage columns in argsort order. -/
def pcaSelIdx (mask : Mask) (hgt wid : ℕ) : List ℕ :=
  (argsortIdx (fun c => maskSumCol mask hgt c) wid).take (pcaNCols mask hgt wid)

/-- numpy roll along the sample axis: a vector of per column shifts with a single axis argument collapses to one circular shift by the sum of the shifts. -/
def rollBy (s : ℕ) (col : List V) : List V := col.rotateRight (s % max col.length 1)

/-- Gather a list of columns at the given index order (numpy fancy indexing by a permutation). -/
def gatherCols (perm : List ℕ) (cols : List (List V)) : List (List V) :=
  perm.filterMap (fun k => cols.get? k)

/-- The shuffled training data columns passed by fit_robust_pca to the robust factorization: the lowest mask coverage columns, duplicated once with a circular shift along the sample axis, then gathered in the shuffle order. -/
def pcaTrainCols (data : Arr) (mask : Mask) (shifts : List ℕ) (perm : List ℕ) :
    List (List V) :=
  let sel := pcaSelIdx mask data.h data.w
  let dataLow := sel.map (fun c => data.col c)
  let s := (shifts.take data.w).foldl (fun a b => a + b) 0
  let comb := dataLow ++ dataLow.map (rollBy s)
  gatherCols perm comb

/-- SingleTileDestripeStep.fit_robust_pca: select the lowest mask coverage columns (falling back to half of all columns), duplicate them with a circular shift along the sample axis, shuffle the combined set globally, and hand the result (data and matching errors) to the external robust factorization. -/
def fitRobustPca {E : Type} (cfg : Cfg) (ex : ExtK E) (data err : Arr) (mask : Mask) : E :=
  ex.vwRun cfg.pcaComponents (pcaTrainCols data mask ex.rollShifts ex.shufflePerm)
    (pcaTrainCols err mask ex.rollShifts ex.shufflePerm)

/-- SingleTileDestripeStep.reconstruct_pca: zero the masked data and errors and apply the external gappy reconstruction with the configured number of components. -/
def reconstructPca {E : Type} (cfg : Cfg) (ex : ExtK E) (e : E) (data err : Arr)
    (mask : Mask) : Arr :=
  ex.recPca cfg.pcaReconstructComponents e
    (data.setWhere (fun i j => mask i j) (.fin 0))
    (err.setWhere (fun i j => mask i j) (.fin 0))

/-- The per quadrant body of run_pca_denoise: normalise the quadrant by its 16 to 84 percentile spread and nanmedian, propagate error NaNs, replace NaN data by the normalised per row median (then zero), zero masked errors, fetch or fit the eigen system (the cache presence test and load both use the whole exposure pickle path), reconstruct, and undo the normalisation.  On an EMPTY quadrant slice the source raises instead of computing: np.nanpercentile of a zero size array returns a zero dimensional value and np.diff then raises ValueError; this embedding returns NaN arithmetic there, so every theorem about the pca path carries size hypotheses (at least 9 rows and, because the fourth slice is hard coded to columns 1532 to 2040 of the trimmed frame, at least 1541 columns) that keep every quadrant slice non empty. -/
def pcaQuadrantPass {E : Type} (cfg : Cfg) (ex : ExtK E) (pcaFile : Option String)
    (dataTrain : Arr) (maskTrain : Mask) (errT : Arr) (dataMed : ℕ → V) (qs i : ℕ)
    (nm : Arr) : Arr :=
  let b := quadSliceBounds false qs i
  let dataQ0 := dataTrain.slice 0 dataTrain.h b.1 b.2
  let maskQ := maskSlice maskTrain dataTrain.h dataTrain.w 0 dataTrain.h b.1 b.2
  let errQ0 := errT.slice 0 errT.h b.1 b.2
  let normFactor := V.abs (V.sub (nanpercentileV 84 dataQ0.allVals)
    (nanpercentileV 16 dataQ0.allVals))
  let normMedian := nanmedianV dataQ0.allVals
  let dataQ1 := dataQ0.mapV (fun x => V.add (V.div (V.sub x normMedian) normFactor) (.fin 1))
  let errQ1 := errQ0.mapV (fun x => V.div x normFactor)
  let dataQ2 : Arr := ⟨dataQ1.h, dataQ1.w, fun r c =>
    if (errQ1.v r c).isNan then .nan else dataQ1.v r c⟩
  let errQ2 := errQ1.mapV (fun x => if x.isNan then .fin 0 else x)
  let dataQ3 : Arr := ⟨dataQ2.h, dataQ2.w, fun r c =>
    if (dataQ2.v r c).isNan then
      V.add (V.div (V.sub (dataMed r) normMedian) normFactor) (.fin 1)
    else dataQ2.v r c⟩
  let dataQ4 := dataQ3.mapV (fun x => if x.isNan then .fin 0 else x)
  let errQ3 := errQ2.setWhere (fun r c => maskQ r c) (.fin 0)
  let eigen := match pcaFile with
    | some pf => if ex.fs.contains pf then ex.loadPca pf
        else fitRobustPca cfg ex dataQ4 errQ3 maskQ
    | none => fitRobustPca cfg ex dataQ4 errQ3 maskQ
  let nmQ0 := reconstructPca cfg ex eigen dataQ4 errQ3 maskQ
  let nmQ := nmQ0.transp.mapV (fun x => V.add (V.mul (V.sub x (.fin 1)) normFactor) normMedian)
  nm.setSlice 0 nm.h b.1 b.2 nmQ

/-- SingleTileDestripeStep.run_pca_denoise: zeros to NaN, subtract the running model, mask, trim the reference border on full frames, recentre by the clipped median, optionally filter diffuse emission; then fit and reconstruct per quadrant (writing into a zero array placed inside a NaN filled full frame) or on the whole trimmed frame; finally recentre the full model by its clipped median under the original full frame mask. -/
def runPcaDenoise {E : Type} (cfg : Cfg) (ex : ExtK E) (fr : Frame) (prev : Arr)
    (pcaFile : Option String) (isSub quadrants : Bool) : Arr :=
  let imData0 := fr.data.setWhere (fun i j => (fr.data.v i j).isZero) .nan
  let qs := fr.data.w / 4
  let imData := imData0.subA prev
  let srcMask := makeSourceMask imData (fun _ _ => false) cfg.sigma cfg.npixels cfg.dilateSize
    (some cfg.maxIters)
  let dqm := getDqMask imData fr.err fr.dq
  let mask0 := maskOr srcMask.m dqm
  let data2 := if isSub then imData else imData.slice 4 (-4) 4 (-4)
  let err2 := if isSub then fr.err else fr.err.slice 4 (-4) 4 (-4)
  let dqm2 : Mask := if isSub then dqm else maskSlice dqm imData.h imData.w 4 (-4) 4 (-4)
  let mask2 : Mask := if isSub then mask0 else maskSlice mask0 imData.h imData.w 4 (-4) 4 (-4)
  let st := clipStats2d cfg.sigma (some cfg.maxIters) data2 mask2
  let data3 := data2.subScalar st.med
  let fd := if cfg.filterDiffuse then getFilterDiffuse cfg ex data3 mask2 dqm2
    else (data3, mask2)
  let dataTrain0 := fd.1
  let maskTrain := fd.2
  let full :=
    if quadrants then
      let dataTrain := dataTrain0.setWhere (fun i j => maskTrain i j) .nan
      let dataMed := fun r => nanmedianV (dataTrain.row r)
      let nmArr := (List.range 4).foldl
        (fun nm i => pcaQuadrantPass cfg ex pcaFile dataTrain maskTrain err2 dataMed qs i nm)
        (dataTrain.constLike (.fin 0))
      (imData.constLike .nan).setSlice 4 (-4) 4 (-4) nmArr
    else
      let dataT1 := dataTrain0.setWhere (fun i j => maskTrain i j) .nan
      let dataT2 : Arr := ⟨dataT1.h, dataT1.w, fun r c =>
        if (err2.v r c).isNan then .nan else dataT1.v r c⟩
      let errT1 := err2.mapV (fun x => if x.isNan then .fin 0 else x)
      let dataMed := fun r => nanmedianV (dataT2.row r)
      let normMedian := nanmedianV dataT2.allVals
      let normFactor := madV dataT2.allVals
      let dataT3 := dataT2.mapV (fun x =>
        V.add (V.div (V.sub x normMedian) normFactor) (.fin 1))
      let errT2 := errT1.mapV (fun x => V.div x normFactor)
      let dataT4 : Arr := ⟨dataT3.h, dataT3.w, fun r c =>
        if (dataT3.v r c).isNan then
          V.add (V.div (V.sub (dataMed r) normMedian) normFactor) (.fin 1)
        else dataT3.v r c⟩
      let dataT5 := dataT4.mapV (fun x => if x.isNan then .fin 0 else x)
      let errT3 := errT2.setWhere (fun r c => maskTrain r c) (.fin 0)
      let eigen := match pcaFile with
        | some pf => if ex.fs.contains pf then ex.loadPca pf
            else fitRobustPca cfg ex dataT5 errT3 maskTrain
        | none => fitRobustPca cfg ex dataT5 errT3 maskTrain
      let nm0 := reconstructPca cfg ex eigen dataT5 errT3 maskTrain
      let nmF := nm0.transp.mapV (fun x => V.mul (V.sub x (.fin 1)) normFactor)
      if isSub then nmF
      else (imData.constLike .nan).setSlice 4 (-4) 4 (-4) nmF
  let noiseMed := (clipStats2d cfg.sigma (some cfg.maxIters) full mask0).med
  full.subScalar noiseMed

/-- The leveled working data of parallel_destripe: the image data replaced by the quadrant leveling result exactly when quadrant processing is effective. -/
def destripeLeveled (cfg : Cfg) (fr : Frame) : Arr :=
  if cfg.quadrants && !fr.isSub then levelData fr else fr.data

/-- The body of parallel_destripe after the effective quadrant decision: level the quadrants (replacing the image data) when the flag is on, run the optional vertical pass and the selected method accumulating one full noise model, then subtract it and restore the zero and NaN sentinels captured from the (possibly leveled) image.  Returns the corrected science array and the accumulated noise model. -/
def destripeWithQuadrants {E : Type} (cfg : Cfg) (ex : ExtK E) (fr : Frame)
    (pcaFile : Option String) (quadrants : Bool) : Arr × Arr :=
  let isSub := fr.isSub
  let data1 := if quadrants then levelData fr else fr.data
  let fr1 : Frame := ⟨data1, fr.err, fr.dq, isSub⟩
  let model0 := data1.constLike (.fin 0)
  let model1 := if cfg.verticalSubtraction then
      model0.addA (runVerticalSubtraction cfg ex fr1 model0)
    else model0
  let model2 :=
    if cfg.destripingMethod = "row_median" then
      model1.addA (runRowMedian cfg ex fr1 model1 quadrants)
    else if cfg.destripingMethod = "median_filter" then
      model1.addA (runMedianFilter cfg ex fr1 model1 quadrants)
    else if cfg.destripingMethod = "remstripe" then
      model1.addA (runRemstriping cfg ex fr1 model1 isSub quadrants)
    else if cfg.destripingMethod = "pca" then
      model1.addA (runPcaDenoise cfg ex fr1 model1 pcaFile isSub quadrants)
    else model1
  let zeroIdx := fun i j => (data1.v i j).isZero
  let nanIdx := fun i j => (data1.v i j).isNan
  let out0 := data1.subA model2
  let out1 := out0.setWhere zeroIdx (.fin 0)
  (out1.setWhere nanIdx .nan, model2)

/-- SingleTileDestripeStep.parallel_destripe: detect the subarray mode, force the quadrant flag off for subarrays, and run the destriping body with that effective flag. -/
def parallelDestripe {E : Type} (cfg : Cfg) (ex : ExtK E) (fr : Frame)
    (pcaFile : Option String) : Arr × Arr :=
  destripeWithQuadrants cfg ex fr pcaFile (cfg.quadrants && !fr.isSub)

/-- NircamDestriper.level_data on its default path (use_sigma_clip false): for each internal boundary take the global nanmedian of the last 20 columns of quadrant i and of the first 20 columns of quadrant i plus one and add their difference to the whole of quadrant i plus one.  The legacy code runs this for every exposure, subarray or not, and applies no mask here. -/
def levelDataLegacy (data : Arr) : Arr :=
  let qs := data.w / 4
  [0, 1, 2].foldl (fun d i =>
    let b1cs := pyIdx (i * qs) d.w
    let b1ce := max b1cs (pyIdx ((i + 1) * qs) d.w)
    let bw1 := b1ce - b1cs
    let s1cs := b1cs + pyIdx ((qs : ℤ) - 20) bw1
    let b2cs := pyIdx ((i + 1) * qs) d.w
    let b2ce := max b2cs (pyIdx ((i + 2) * qs) d.w)
    let bw2 := b2ce - b2cs
    let s2ce := b2cs + min 20 bw2
    let strip1 := (List.range d.h).flatMap (fun r =>
      (((List.range d.w).filter (fun c => decide (s1cs ≤ c) && decide (c < b1ce))).map
        (fun c => d.v r c)))
    let strip2 := (List.range d.h).flatMap (fun r =>
      (((List.range d.w).filter (fun c => decide (b2cs ≤ c) && decide (c < s2ce))).map
        (fun c => d.v r c)))
    let med1 := nanmedianV strip1
    let med2 := nanmedianV strip2
    d.addScalarSlice 0 d.h ((i + 1) * qs) ((i + 2) * qs) (V.sub med1 med2)) data

/-- NircamDestriper.run_row_median: capture the zero and NaN sentinels, set zeros to NaN, level the amplifiers (unconditionally), mask sources (legacy photutils mask builder) and bad data quality (any nonzero dq bit), collapse sigma clipped medians along rows (per quadrant or whole frame) recentred by the plain nanmedian, restore the sentinels into the (leveled) science plane, and return it with the model. -/
def runRowMedianLegacy (sigma : ℚ) (npixels dilateSize : ℕ) (maxIters : Option ℕ)
    (quadrants : Bool) (data0 : Arr) (dq : DQ) : Arr × Arr :=
  let zeroIdx := fun i j => (data0.v i j).isZero
  let nanIdx := fun i j => (data0.v i j).isNan
  let d1 := data0.setWhere zeroIdx .nan
  let d2 := levelDataLegacy d1
  let srcMask := makeSourceMaskLegacy d2 sigma npixels dilateSize
  let dqm : Mask := fun i j =>
    !(d2.v i j).isFinite || (d2.v i j).isZero || decide (dq i j ≠ 0)
  let mask := maskOr srcMask.m dqm
  let zeroModel := d2.constLike (.fin 0)
  let model :=
    if quadrants then
      let qs := d2.w / 4
      (List.range 4).foldl (fun model i =>
        let dataQ := d2.slice 0 d2.h (i * qs) ((i + 1) * qs)
        let maskQ := maskSlice mask d2.h d2.w 0 d2.h (i * qs) ((i + 1) * qs)
        let meds := fun r => clipMedPerRow sigma maxIters dataQ maskQ r
        let medsL := (List.range dataQ.h).map meds
        let m1 := Arr.addSliceArr model 0 model.h (i * qs) ((i + 1) * qs)
          ⟨dataQ.h, dataQ.w, fun r _ => meds r⟩
        m1.addScalarSlice 0 m1.h (i * qs) ((i + 1) * qs) (V.neg (nanmedianV medsL))
        ) zeroModel
    else
      let meds := fun r => clipMedPerRow sigma maxIters d2 mask r
      let medsL := (List.range d2.h).map meds
      (zeroModel.addColVec meds).subScalar (nanmedianV medsL)
  let dOut := (d2.setWhere zeroIdx (.fin 0)).setWhere nanIdx .nan
  (dOut, model)

/-- NircamDestriper.run_destriping for the row_median method: run the method (which levels and mutates the stored science plane), then capture the sentinels again, subtract the model and restore them. -/
def runDestripingLegacyRowMedian (sigma : ℚ) (npixels dilateSize : ℕ) (maxIters : Option ℕ)
    (quadrants : Bool) (data0 : Arr) (dq : DQ) : Arr :=
  let r := runRowMedianLegacy sigma npixels dilateSize maxIters quadrants data0 dq
  let sci := r.1
  let model := r.2
  let z2 := fun i j => (sci.v i j).isZero
  let n2 := fun i j => (sci.v i j).isNan
  ((sci.subA model).setWhere z2 (.fin 0)).setWhere n2 .nan

/-- The action taken by a pca cache branch: load an eigen system from a path, or fit afresh and write to the given path (none when no cache is configured). -/
inductive CacheAct where
  | load (path : String) : CacheAct
  | fitWrite (path : Option String) : CacheAct
deriving DecidableEq

/-- Structural embedding of python str.replace: replace every occurrence of the pattern, scanning left to right (fuel bounded by the string length so the kernel can evaluate it). -/
def replaceCharsF (pat rep : List Char) : ℕ → List Char → List Char
  | 0, l => l
  | _ + 1, [] => []
  | f + 1, c :: rest =>
      if pat ≠ [] ∧ (c :: rest).take pat.length = pat then
        rep ++ replaceCharsF pat rep f ((c :: rest).drop pat.length)
      else c :: replaceCharsF pat rep f rest

/-- String replacement through the structural scanner. -/
def strReplace (s pat rep : String) : String :=
  ⟨replaceCharsF pat.data rep.data (s.data.length + 1) s.data⟩

/-- The per quadrant pickle path: the whole exposure path with the extension replaced by an amp suffix. -/
def ampPath (pf : String) (i : ℕ) : String :=
  strReplace pf (".pkl") ("_amp_" ++ toString i ++ ".pkl")

/-- The cache branch of SingleTileDestripeStep.run_pca_denoise inside the quadrant loop: the per quadrant path is derived, but the presence test and the load both name the whole exposure path, while a fresh fit is written to the per quadrant path. -/
def pcaQuadCacheAct (fs : List String) (pcaFile : Option String) (i : ℕ) : CacheAct :=
  match pcaFile with
  | some pf =>
      if fs.contains pf then .load pf
      else .fitWrite (some (ampPath pf i))
  | none => .fitWrite none

/-- The corresponding cache branch of the legacy NircamDestriper.run_pca_denoise quadrant loop: the presence test, the load and the write all name the per quadrant amp path. -/
def pcaQuadCacheActLegacy (fs : List String) (pcaFile : Option String) (i : ℕ) : CacheAct :=
  match pcaFile with
  | some pf =>
      if fs.contains (ampPath pf i) then .load (ampPath pf i)
      else .fitWrite (some (ampPath pf i))
  | none => .fitWrite none

/-- The cache branch of run_pca_denoise outside the quadrant loop: presence test, load and write all use the whole exposure path. -/
def pcaWholeCacheAct (fs : List String) (pcaFile : Option String) : CacheAct :=
  match pcaFile with
  | some pf =>
      if fs.contains pf then .load pf
      else .fitWrite (some pf)
  | none => .fitWrite none

/-- The allowed destriping method names of the single tile step. -/
def DESTRIPING_METHODS : List String := ["row_median", "median_filter", "remstripe", "pca"]

/-- The allowed weight type names of the multi tile step. -/
def ALLOWED_WEIGHT_TYPES : List String := ["exptime", "ivm"]

/-- The allowed destriping method names of the legacy NircamDestriper. -/
def DESTRIPING_METHODS_LEGACY : List String := ["row_median", "median_filter", "pca"]

/-- SingleTileDestripeStep construction: the destriping method is validated first and an exception is raised before any state is set up or any frame is touched. -/
def mkSingleTileStep (cfg : Cfg) : Except String Cfg :=
  if cfg.destripingMethod ∈ DESTRIPING_METHODS then .ok cfg
  else .error ("destriping_method should be one of the allowed methods, not "
    ++ cfg.destripingMethod)

/-- Configuration of MultiTileDestripeStep (the constructor arguments the destriping math reads). -/
structure MCfg where
  weightType : String
  minAreaFrac : ℚ
  quadrants : Bool
  doLargeScale : Bool
  medianFilterFactor : ℕ
  sigma : ℚ
  dilateSize : ℕ
  maxiters : Option ℕ

/-- MultiTileDestripeStep construction: the weight type is validated first and an exception is raised before any computation starts. -/
def mkMultiTileStep (mcfg : MCfg) : Except String MCfg :=
  if mcfg.weightType ∈ ALLOWED_WEIGHT_TYPES then .ok mcfg
  else .error ("weight_type should be one of the allowed types, not " ++ mcfg.weightType)

/-- Legacy NircamDestriper construction: a missing input name or an unknown destriping method raises before anything else runs. -/
def mkNircamDestriper (hduName : Option String) (method : String) :
    Except String (String × String) :=
  match hduName with
  | none => .error ("hdu_name should be defined")
  | some nm =>
      if method ∈ DESTRIPING_METHODS_LEGACY then .ok (nm, method)
      else .error ("destriping_method should be one of the allowed methods")

/-- A reprojected exposure on the common mosaic grid (reproject ReprojectedArraySubset): global bounding box and local value and weight planes (local row r corresponds to global j equal to jmin plus r, local column c to global i equal to imin plus c).  After parallel_reproject_weight the data NaNs are zeroed and the weights vanish off the footprint. -/
structure RSub where
  imin : ℕ
  imax : ℕ
  jmin : ℕ
  jmax : ℕ
  data : ℕ → ℕ → V
  weight : ℕ → ℕ → V

/-- Number of local rows of a reprojected subset. -/
def RSub.rows (s : RSub) : ℕ := s.jmax - s.jmin

/-- Number of local columns of a reprojected subset. -/
def RSub.cols (s : RSub) : ℕ := s.imax - s.imin

/-- Bounding box overlap test of ReprojectedArraySubset.overlaps. -/
def rsubOverlaps (a b : RSub) : Bool :=
  decide (b.imin < a.imax) && decide (a.imin < b.imax) &&
    decide (b.jmin < a.jmax) && decide (a.jmin < b.jmax)

/-- The intersection box of two subsets as global bounds (imin, imax, jmin, jmax), with the python imax below imin clip applied. -/
def boxInter (a b : RSub) : ℕ × ℕ × ℕ × ℕ :=
  let ilo := max a.imin b.imin
  let ihi := max ilo (min a.imax b.imax)
  let jlo := max a.jmin b.jmin
  let jhi := max jlo (min a.jmax b.jmax)
  (ilo, ihi, jlo, jhi)

/-- The flattened level difference samples between a contributing exposure and the target: over the overlap box, where the weight product is positive, the pointwise difference, with exact zeros set to NaN and non finite values dropped (the source flattens, NaNs the zeros and keeps the finite entries). -/
def diffVals (tgt other : RSub) : List V :=
  let b := boxInter tgt other
  let ilo := b.1
  let ihi := b.2.1
  let jlo := b.2.2.1
  let jhi := b.2.2.2
  (((List.range (jhi - jlo)).flatMap (fun dj =>
    (List.range (ihi - ilo)).map (fun di =>
      let jg := jlo + dj
      let ig := ilo + di
      let w := V.mul (other.weight (jg - other.jmin) (ig - other.imin))
        (tgt.weight (jg - tgt.jmin) (ig - tgt.imin))
      let d := V.sub (other.data (jg - other.jmin) (ig - other.imin))
        (tgt.data (jg - tgt.jmin) (ig - tgt.imin))
      (w, d)))).filterMap (fun p => if V.ltb (.fin 0) p.1 then some p.2 else none)).filter
    (fun x => x.isFinite && !x.isZero)

/-- The weighted data contribution of one qualifying exposure on the target footprint: its weight times its level shifted data inside the overlap box, zero outside (numpy builds a zero array and adds into the slice). -/
def contribData (tgt other : RSub) (dmed : V) : Arr :=
  let b := boxInter tgt other
  ⟨tgt.rows, tgt.cols, fun r c =>
    let jg := tgt.jmin + r
    let ig := tgt.imin + c
    if b.2.2.1 ≤ jg ∧ jg < b.2.2.2 ∧ b.1 ≤ ig ∧ ig < b.2.1 then
      V.add (.fin 0) (V.mul (other.weight (jg - other.jmin) (ig - other.imin))
        (V.sub (other.data (jg - other.jmin) (ig - other.imin)) dmed))
    else .fin 0⟩

/-- The weight contribution of one qualifying exposure on the target footprint. -/
def contribWeight (tgt other : RSub) : Arr :=
  let b := boxInter tgt other
  ⟨tgt.rows, tgt.cols, fun r c =>
    let jg := tgt.jmin + r
    let ig := tgt.imin + c
    if b.2.2.1 ≤ jg ∧ jg < b.2.2.2 ∧ b.1 ≤ ig ∧ ig < b.2.1 then
      V.add (.fin 0) (other.weight (jg - other.jmin) (ig - other.imin))
    else .fin 0⟩

/-- The own weighted data plane of the exposure under correction, as initialised by create_subset_reproj_image before the loop over the stack. -/
def c3Data0 (tgt : RSub) : Arr :=
  ⟨tgt.rows, tgt.cols, fun r c => V.add (.fin 0) (V.mul (tgt.weight r c) (tgt.data r c))⟩

/-- The own weight plane of the exposure under correction, as initialised before the loop. -/
def c3Weights0 (tgt : RSub) : Arr :=
  ⟨tgt.rows, tgt.cols, fun r c => V.add (.fin 0) (tgt.weight r c)⟩

/-- The valid pixel predicate of the target footprint used for the area fraction test. -/
def c3ValidIdx (tgt : RSub) : ℕ → ℕ → Bool :=
  fun r c => ((c3Data0 tgt).v r c).isFinite && !((c3Data0 tgt).v r c).isZero

/-- The number of valid pixels of the target footprint. -/
def c3NpixFile (tgt : RSub) : ℕ :=
  (((List.range tgt.rows).flatMap (fun r =>
    (List.range tgt.cols).map (fun c => (r, c)))).filter
      (fun p => c3ValidIdx tgt p.1 p.2)).length

/-- The fraction of the valid target footprint on which the contribution of one other exposure is finite and nonzero. -/
def c3AreaFrac (tgt other : RSub) (validIdx : ℕ → ℕ → Bool) (npixFile : ℕ) : ℚ :=
  let nd := contribData tgt other ((clipStats 3 (some 10) (diffVals tgt other)).med)
  qdiv (qofNat ((((List.range tgt.rows).flatMap (fun r =>
    (List.range tgt.cols).map (fun c => (r, c)))).filter (fun p =>
      validIdx p.1 p.2 && (nd.v p.1 p.2).isFinite && !(nd.v p.1 p.2).isZero)).length))
    (qofNat npixFile)

/-- One loop iteration of MultiTileDestripeStep.create_subset_reproj_image: skip the target itself, skip non overlapping exposures, skip exposures with no valid level difference samples, level shift by the ten iteration clipped median of the differences, and skip exposures whose valid overlap with the target footprint is below the minimum area fraction; otherwise accumulate the weighted contribution. -/
def subsetStep (stack : List RSub) (sIdx : ℕ) (tgt : RSub) (validIdx : ℕ → ℕ → Bool)
    (npixFile : ℕ) (minAreaFrac : ℚ) (acc : Arr × Arr) (idx : ℕ) : Arr × Arr :=
  if idx = sIdx then acc
  else
    match stack.get? idx with
    | none => acc
    | some other =>
        if !(rsubOverlaps tgt other) then acc
        else
          if (diffVals tgt other).isEmpty then acc
          else
            if c3AreaFrac tgt other validIdx npixFile < minAreaFrac then acc
            else (acc.1.addA (contribData tgt other
                    ((clipStats 3 (some 10) (diffVals tgt other)).med)),
                  acc.2.addA (contribWeight tgt other))

/-- MultiTileDestripeStep.create_subset_reproj_image: start from the weighted data and weights of the exposure under correction itself, fold the qualifying contributions of the other exposures on top, divide, and set exact zeros of the average to NaN. -/
def createSubsetReproj (mcfg : MCfg) (stack : List RSub) (sIdx : ℕ) : Arr :=
  match stack.get? sIdx with
  | none => ⟨0, 0, fun _ _ => .nan⟩
  | some tgt =>
      let res := (List.range stack.length).foldl
        (subsetStep stack sIdx tgt (c3ValidIdx tgt) (c3NpixFile tgt) mcfg.minAreaFrac)
        (c3Data0 tgt, c3Weights0 tgt)
      let dataAvg := Arr.map2 V.div res.1 res.2
      dataAvg.setWhere (fun r c => (dataAvg.v r c).isZero) .nan

/-- The effective quadrant flag of MultiTileDestripeStep.multi_tile_destripe: the configured flag, forced off when the exposure is a subarray. -/
def multiTileEffQuadrants (mcfg : MCfg) (isSub : Bool) : Bool :=
  mcfg.quadrants && !isSub

/-- Whether a column lies in the last 20 columns of quadrant i (claim wording; quadrant i spans columns i times qs up to i plus one times qs). -/
def inStripLast20 (qs i c : ℕ) : Prop := (i + 1) * qs - 20 ≤ c ∧ c < (i + 1) * qs

instance (qs i c : ℕ) : Decidable (inStripLast20 qs i c) := by
  unfold inStripLast20
  infer_instance

/-- Whether a column lies in the first 20 columns of quadrant i plus one (claim wording). -/
def inStripFirst20 (qs i c : ℕ) : Prop := (i + 1) * qs ≤ c ∧ c < (i + 1) * qs + 20

instance (qs i c : ℕ) : Decidable (inStripFirst20 qs i c) := by
  unfold inStripFirst20
  infer_instance

/-- Whether a column lies in quadrant k (claim wording). -/
def inQuadCol (qs k c : ℕ) : Prop := k * qs ≤ c ∧ c < (k + 1) * qs

instance (qs k c : ℕ) : Decidable (inQuadCol qs k c) := by
  unfold inQuadCol
  infer_instance

/-- The boundary shift of the claim: the sigma clipped median (clip sigma three, iterated to convergence) over rows of the difference between the median of the unmasked valid pixels of the last 20 columns of quadrant i and the median of the unmasked valid pixels of the first 20 columns of quadrant i plus one, all read from the current working data. -/
def levelShiftSpec (dqMask : Mask) (qs i : ℕ) (d : Arr) : V :=
  let med1 := fun r => nanmedianV (((List.range d.w).filter
    (fun c => decide (inStripLast20 qs i c))).filterMap
      (fun c => if dqMask r c then none else some (d.v r c)))
  let med2 := fun r => nanmedianV (((List.range d.w).filter
    (fun c => decide (inStripFirst20 qs i c))).filterMap
      (fun c => if dqMask r c then none else some (d.v r c)))
  (clipStats 3 none ((List.range d.h).map (fun r => V.sub (med1 r) (med2 r)))).med

/-- One boundary of the claim side leveling description: masked pixels inside the two comparison strips become NaN, and every pixel of quadrant i plus one is shifted by the clipped median difference of the strips. -/
def levelBoundarySpec (dqMask : Mask) (qs i : ℕ) (d : Arr) : Arr :=
  let delta := levelShiftSpec dqMask qs i d
  ⟨d.h, d.w, fun r c =>
    let base := if dqMask r c ∧ (inStripLast20 qs i c ∨ inStripFirst20 qs i c) then V.nan
      else d.v r c
    if inQuadCol qs (i + 1) c then V.add base delta else base⟩

/-- The claim side leveling: the three internal boundaries processed left to right, each comparing the neighbouring 20 column strips (masked pixels excluded) and shifting the whole right hand quadrant by the clipped median difference, so shifts compound. -/
def levelDataSpec (fr : Frame) : Arr :=
  let qs := fr.data.w / 4
  let dqMask := getDqMask fr.data fr.err fr.dq
  [0, 1, 2].foldl (fun d i => levelBoundarySpec dqMask qs i d) fr.data

/-- A value within the given tolerance of floating zero. -/
def nearZero (x : V) (tol : ℚ) : Prop := ∃ q, x = V.fin q ∧ -tol ≤ q ∧ q ≤ tol

/-- Whether the loop body of create_subset_reproj_image accumulates the exposure at the given index into the reference for the target: it must be a different exposure, overlap the target box, have at least one valid level difference sample, and cover at least the minimum area fraction of the target footprint. -/
def c3Qualifies (stack : List RSub) (sIdx : ℕ) (tgt : RSub) (validIdx : ℕ → ℕ → Bool)
    (npixFile : ℕ) (minAreaFrac : ℚ) (idx : ℕ) : Bool :=
  if idx = sIdx then false
  else
    match stack.get? idx with
    | none => false
    | some other =>
        if !(rsubOverlaps tgt other) then false
        else
          if (diffVals tgt other).isEmpty then false
          else decide (¬(c3AreaFrac tgt other validIdx npixFile < minAreaFrac))

/-- The pointwise data contribution of one stack index to the reference sum: its weighted level shifted data when it qualifies, zero otherwise. -/
def c3ContribData (stack : List RSub) (sIdx : ℕ) (tgt : RSub) (validIdx : ℕ → ℕ → Bool)
    (npixFile : ℕ) (minAreaFrac : ℚ) (idx r c : ℕ) : V :=
  if c3Qualifies stack sIdx tgt validIdx npixFile minAreaFrac idx then
    match stack.get? idx with
    | none => .fin 0
    | some other => (contribData tgt other ((clipStats 3 (some 10) (diffVals tgt other)).med)).v r c
  else .fin 0

/-- The pointwise weight contribution of one stack index to the reference sum. -/
def c3ContribWeight (stack : List RSub) (sIdx : ℕ) (tgt : RSub) (validIdx : ℕ → ℕ → Bool)
    (npixFile : ℕ) (minAreaFrac : ℚ) (idx r c : ℕ) : V :=
  if c3Qualifies stack sIdx tgt validIdx npixFile minAreaFrac idx then
    match stack.get? idx with
    | none => .fin 0
    | some other => (contribWeight tgt other).v r c
  else .fin 0

/-- The claim side reference image built only from the other exposures: identical fold, but the exposure under correction contributes nothing to either sum (spec words: summing weighted contributions from every other overlapping exposure in the stack). -/
def otherOnlyRefSpec (mcfg : MCfg) (stack : List RSub) (sIdx : ℕ) : Arr :=
  match stack.get? sIdx with
  | none => ⟨0, 0, fun _ _ => .nan⟩
  | some tgt =>
      let zeros : Arr := ⟨tgt.rows, tgt.cols, fun _ _ => .fin 0⟩
      let res := (List.range stack.length).foldl
        (subsetStep stack sIdx tgt (c3ValidIdx tgt) (c3NpixFile tgt) mcfg.minAreaFrac)
        (zeros, zeros)
      let dataAvg := Arr.map2 V.div res.1 res.2
      dataAvg.setWhere (fun r c => (dataAvg.v r c).isZero) .nan

/-- The claim side legacy run with the leveling pass removed (encodes the claim that no per quadrant leveling occurs on a subarray exposure). -/
def runRowMedianLegacyNoLevel (sigma : ℚ) (npixels dilateSize : ℕ) (maxIters : Option ℕ)
    (quadrants : Bool) (data0 : Arr) (dq : DQ) : Arr × Arr :=
  let zeroIdx := fun i j => (data0.v i j).isZero
  let nanIdx := fun i j => (data0.v i j).isNan
  let d1 := data0.setWhere zeroIdx .nan
  let d2 := d1
  let srcMask := makeSourceMaskLegacy d2 sigma npixels dilateSize
  let dqm : Mask := fun i j =>
    !(d2.v i j).isFinite || (d2.v i j).isZero || decide (dq i j ≠ 0)
  let mask := maskOr srcMask.m dqm
  let zeroModel := d2.constLike (.fin 0)
  let model :=
    if quadrants then
      let qs := d2.w / 4
      (List.range 4).foldl (fun model i =>
        let dataQ := d2.slice 0 d2.h (i * qs) ((i + 1) * qs)
        let maskQ := maskSlice mask d2.h d2.w 0 d2.h (i * qs) ((i + 1) * qs)
        let meds := fun r => clipMedPerRow sigma maxIters dataQ maskQ r
        let medsL := (List.range dataQ.h).map meds
        let m1 := Arr.addSliceArr model 0 model.h (i * qs) ((i + 1) * qs)
          ⟨dataQ.h, dataQ.w, fun r _ => meds r⟩
        m1.addScalarSlice 0 m1.h (i * qs) ((i + 1) * qs) (V.neg (nanmedianV medsL))
        ) zeroModel
    else
      let meds := fun r => clipMedPerRow sigma maxIters d2 mask r
      let medsL := (List.range d2.h).map meds
      (zeroModel.addColVec meds).subScalar (nanmedianV medsL)
  let dOut := (d2.setWhere zeroIdx (.fin 0)).setWhere nanIdx .nan
  (dOut, model)

/-- The claim side legacy driver with the leveling pass removed. -/
def runDestripingLegacyNoLevel (sigma : ℚ) (npixels dilateSize : ℕ) (maxIters : Option ℕ)
    (quadrants : Bool) (data0 : Arr) (dq : DQ) : Arr :=
  let r := runRowMedianLegacyNoLevel sigma npixels dilateSize maxIters quadrants data0 dq
  let sci := r.1
  let model := r.2
  let z2 := fun i j => (sci.v i j).isZero
  let n2 := fun i j => (sci.v i j).isNan
  ((sci.subA model).setWhere z2 (.fin 0)).setWhere n2 .nan

/-- Trivial external kernel bundle used to evaluate concrete runs whose conclusions do not depend on the external kernels (the evaluations below are invariant in these parameters). -/
def exUnit : ExtK Unit :=
  ⟨fun _ _ _ => (), [], [], fun _ _ _ _ => ⟨0, 0, fun _ _ => .nan⟩,
    fun a st _ => (a, fun _ _ => st.mean.isNan), fun _ => (), []⟩

/-- Default style configuration with the row median method, vertical subtraction off and quadrants on (a configuration the step constructor accepts). -/
def cfgC1 : Cfg :=
  ⟨true, false, "row_median", false, 3, 3, 11, 20, [3, 7, 15, 31, 63, 127], 50, 10⟩

/-- Concrete full frame exposure for the sentinel claim: a 4 by 8 frame of ones with a single zero sentinel at row 0 column 2 (inside the first leveling comparison strip of quadrant 1), unit errors and clean data quality. -/
def frC1 : Frame :=
  ⟨⟨4, 8, fun i j => if i = 0 ∧ j = 2 then .fin 0 else .fin 1⟩,
   ⟨4, 8, fun _ _ => .fin 1⟩, fun _ _ => 0, false⟩

/-- The same configuration with the pca method selected. -/
def cfgC10 : Cfg :=
  ⟨true, false, "pca", false, 3, 3, 11, 20, [3, 7, 15, 31, 63, 127], 50, 10⟩

/-- Concrete full frame exposure for the border claim: 12 rows by 1544 columns (wide enough that every trimmed quadrant slice of the pca loop, including the hard coded 1532 to 2040 one, is non empty, so the real program runs to completion), all ones except the first 20 columns of quadrant 1 (columns 386 to 405) which hold twos in every row; the leveling shift of quadrant 1 is then exactly minus one, which zeroes every quadrant 1 pixel outside that strip. -/
def frC10 : Frame :=
  ⟨⟨12, 1544, fun _ j => if 386 ≤ j ∧ j < 406 then .fin 2 else .fin 1⟩,
   ⟨12, 1544, fun _ _ => .fin 1⟩, fun _ _ => 0, false⟩

/-- Configuration for the zero centering counterexample: row median method without quadrants. -/
def cfgC2 : Cfg :=
  ⟨false, false, "row_median", false, 3, 3, 11, 20, [3, 7, 15, 31, 63, 127], 50, 10⟩

/-- Concrete exposure for the zero centering counterexample: two rows of ten columns; row 0 has two pixels at five and eight NaN pixels, row 1 is all sevens. -/
def frC2 : Frame :=
  ⟨⟨2, 10, fun i j => if i = 0 then (if j < 2 then .fin 5 else .nan) else .fin 7⟩,
   ⟨2, 10, fun _ _ => .fin 1⟩, fun _ _ => 0, false⟩

/-- The summed row median noise model of the counterexample exposure (the whole model of the run, vertical subtraction off). -/
def c2model : Arr :=
  runRowMedian cfgC2 exUnit frC2 (frC2.data.constLike (.fin 0)) false

/-- The stage mask of the counterexample run (the original bad pixel mask of the zero centering property: detected sources joined with the data quality mask). -/
def c2mask : Mask :=
  (rowMedianParts cfgC2 exUnit frC2 (frC2.data.constLike (.fin 0))).2

/-- Concrete subarray exposure for the leveling claim: four rows of eight columns, quadrant 0 at one and the rest at two. -/
def dataC6 : Arr := ⟨4, 8, fun _ j => if j < 2 then .fin 1 else .fin 2⟩

/-- Clean data quality plane. -/
def dqZero : DQ := fun _ _ => 0

/-- First exposure of the multi tile counterexample stack: a two by two tile at the grid origin with data two and unit weights. -/
def rsubA : RSub := ⟨0, 2, 0, 2, fun _ _ => .fin 2, fun _ _ => .fin 1⟩

/-- Second exposure of the multi tile counterexample stack: a far away two by two tile that does not overlap the first. -/
def rsubB : RSub := ⟨10, 12, 10, 12, fun _ _ => .fin 3, fun _ _ => .fin 1⟩

/-- The counterexample stack. -/
def stackC3 : List RSub := [rsubA, rsubB]

/-- Multi tile configuration with the default exposure time weighting and one half minimum area fraction. -/
def mcfgC3 : MCfg := ⟨"exptime", mkRat 1 2, true, false, 4, 3, 7, none⟩

/-- A one row frame wide enough for twenty column strips, used to instantiate the leveling theorem. -/
def frC5 : Frame :=
  ⟨⟨1, 80, fun _ j => .fin (qofNat j)⟩, ⟨1, 80, fun _ _ => .fin 1⟩, fun _ _ => 0, false⟩

/-- Small mask and data for the training selection witness: four columns of height two, two columns heavily masked. -/
def dataC8 : Arr := ⟨2, 4, fun i j => .fin (qofNat (i + j))⟩

/-- Mask for the training selection witness: columns 1 and 3 fully masked. -/
def maskC8 : Mask := fun _ j => j = 1 || j = 3

/-- Bad single tile configuration for the configuration error claim. -/
def cfgC9bad : Cfg :=
  ⟨true, true, "boxcar", false, 3, 3, 11, 20, [3, 7, 15, 31, 63, 127], 50, 10⟩

/-- Bad multi tile configuration for the configuration error claim. -/
def mcfgC9bad : MCfg := ⟨"uniform", mkRat 1 2, true, false, 4, 3, 7, none⟩

/-- A tiny constant array for the mask builder witness. -/
def tinyArrC7 : Arr := ⟨2, 2, fun _ _ => .fin 1⟩

/-- A subarray exposure built over the quadrant offset data, used to instantiate the subarray claims. -/
def frC6sub : Frame := ⟨dataC6, ⟨4, 8, fun _ _ => .fin 1⟩, dqZero, true⟩

/-- An external kernel with a concrete four element shuffle permutation and a unit roll shift, used to instantiate the training selection claim. -/
def exC8 : ExtK Unit :=
  ⟨fun _ _ _ => (), [1], [2, 0, 3, 1], fun _ _ _ _ => ⟨0, 0, fun _ _ => .nan⟩,
    fun a st _ => (a, fun _ _ => st.mean.isNan), fun _ => (), []⟩

/-- Whether a column lies in the last 20 column strip of quadrant i (resolved bound form shared by the code and claim sides). -/
def lbStrip1 (qs i c : ℕ) : Bool := decide ((i + 1) * qs - 20 ≤ c) && decide (c < (i + 1) * qs)

/-- Whether a column lies in the first 20 column strip of quadrant i plus one (resolved bound form). -/
def lbStrip2 (qs i c : ℕ) : Bool := decide ((i + 1) * qs ≤ c) && decide (c < (i + 1) * qs + 20)

/-- The working data after the strip mask mutation of one leveling boundary: flagged pixels inside either comparison strip are NaN. -/
def lbPoint (dqMask : Mask) (qs i : ℕ) (d : Arr) (r c : ℕ) : V :=
  if dqMask r c && (lbStrip1 qs i c || lbStrip2 qs i c) then V.nan else d.v r c

/-- The boundary shift: clipped median over rows of the difference of the per row strip nanmedians of the mutated working data. -/
def lbDelta (dqMask : Mask) (qs i : ℕ) (d : Arr) : V :=
  (clipStats 3 none ((List.range d.h).map (fun r =>
    V.sub (nanmedianV (((List.range d.w).filter (fun c => lbStrip1 qs i c)).map
            (fun c => lbPoint dqMask qs i d r c)))
          (nanmedianV (((List.range d.w).filter (fun c => lbStrip2 qs i c)).map
            (fun c => lbPoint dqMask qs i d r c)))))).med

set_option maxRecDepth 1000000

theorem V.zero_add (x : V) : V.add (.fin 0) x = x := by
  cases x <;> simp [V.add, qadd_eq]

theorem V.add_zero (x : V) : V.add x (.fin 0) = x := by
  cases x <;> simp [V.add, qadd_eq]

theorem V.sub_nan (x : V) : V.sub x .nan = .nan := by
  cases x <;> rfl

theorem V.nan_isFinite_false : V.nan.isFinite = false := rfl

/-- C1: the corrected output of parallel_destripe does not restore the zero sentinels of the original science array once quadrant leveling has run: on a 4 by 8 frame of ones with a single zero at row 0 column 2, the zero pixel lands inside a leveling comparison strip, is turned into NaN by the strip mutation, and the corrected output holds NaN there instead of zero (for every choice of the external kernels; the trivial bundle instantiates them).  The legacy NircamDestriper, which captures the sentinels before mutating, returns exactly zero at the same pixel of the same frame. -/
theorem claim_C1_eval :
    frC1.data.v 0 2 = .fin 0 ∧
    (parallelDestripe cfgC1 exUnit frC1 none).1.v 0 2 = V.nan ∧
    (runDestripingLegacyRowMedian 3 3 11 (some 20) true frC1.data dqZero).v 0 2 = .fin 0 := by
  refine ⟨by decide, by decide, by decide⟩

/-- C4: with a per quadrant cache entry present on disk (x_amp_0.pkl) and the whole exposure pickle absent, the quadrant branch of run_pca_denoise does not skip the fit: it refits and rewrites the per quadrant file, because its presence test and load both name the whole exposure path; the legacy branch loads the per quadrant entry as the claim describes, and the non quadrant branch keys correctly on the whole exposure path.  When the whole exposure file does exist, the quadrant branch loads that single file for every quadrant index. -/
theorem claim_C4_eval :
    pcaQuadCacheAct ["x_amp_0.pkl"] (some ("x.pkl")) 0 = .fitWrite (some ("x_amp_0.pkl")) ∧
    pcaQuadCacheActLegacy ["x_amp_0.pkl"] (some ("x.pkl")) 0 = .load ("x_amp_0.pkl") ∧
    pcaWholeCacheAct ["x.pkl"] (some ("x.pkl")) = .load ("x.pkl") ∧
    pcaQuadCacheAct ["x.pkl"] (some ("x.pkl")) 2 = .load ("x.pkl") := by
  refine ⟨by decide, by decide, by decide, by decide⟩

/-- C9: an unknown destriping method name or weighting scheme name is rejected by the constructors before any frame computation: the single tile constructor, the multi tile constructor, and the legacy constructor all return an error and never produce a configured step. -/
theorem claim_C9_config_rejected (cfg : Cfg) (mcfg : MCfg) (nm : Option String)
    (method : String)
    (hm : cfg.destripingMethod ∉ DESTRIPING_METHODS)
    (hw : mcfg.weightType ∉ ALLOWED_WEIGHT_TYPES)
    (hl : method ∉ DESTRIPING_METHODS_LEGACY) :
    (∀ c, mkSingleTileStep cfg ≠ .ok c) ∧
    (∀ c, mkMultiTileStep mcfg ≠ .ok c) ∧
    (∀ r, mkNircamDestriper nm method ≠ .ok r) := by
  refine ⟨?_, ?_, ?_⟩
  · intro c
    simp [mkSingleTileStep, hm]
  · intro c
    simp [mkMultiTileStep, hw]
  · intro r
    cases nm with
    | none => simp [mkNircamDestriper]
    | some s => simp [mkNircamDestriper, hl]

/-- C9 witness: the concrete bad configurations are rejected. -/
theorem claim_C9_witness :
    (∀ c, mkSingleTileStep cfgC9bad ≠ .ok c) ∧
    (∀ c, mkMultiTileStep mcfgC9bad ≠ .ok c) ∧
    (∀ r, mkNircamDestriper (some ("f.fits")) ("boxcar") ≠ .ok r) :=
  claim_C9_config_rejected cfgC9bad mcfgC9bad (some ("f.fits")) ("boxcar")
    (by decide) (by decide) (by decide)

/-- C7: the source mask builder always returns a boolean mask of the same shape as its input, and when no connected component above threshold is detected it returns the all false mask instead of failing. -/
theorem claim_C7_mask_shape_fallback (data : Arr) (m : Mask) (nsigma : ℚ)
    (npix dil : ℕ) (iters : Option ℕ) :
    ((makeSourceMask data m nsigma npix dil iters).h = data.h ∧
      (makeSourceMask data m nsigma npix dil iters).w = data.w) ∧
    (detectSources data (detectThreshold data m nsigma nsigma iters) npix = none →
      ∀ i j, (makeSourceMask data m nsigma npix dil iters).m i j = false) := by
  constructor
  · cases hds : detectSources data (detectThreshold data m nsigma nsigma iters) npix with
    | none => simp [makeSourceMask, hds]
    | some s => simp [makeSourceMask, hds]
  · intro hnone i j
    simp [makeSourceMask, hnone]

/-- C7 witness: on a tiny constant frame nothing is detected and the returned mask is all false with the input shape. -/
theorem claim_C7_witness :
    ((makeSourceMask tinyArrC7 (fun _ _ => false) 3 3 11 (some 5)).h = tinyArrC7.h ∧
      (makeSourceMask tinyArrC7 (fun _ _ => false) 3 3 11 (some 5)).w = tinyArrC7.w) ∧
    (makeSourceMask tinyArrC7 (fun _ _ => false) 3 3 11 (some 5)).m 0 0 = false := by
  refine ⟨(claim_C7_mask_shape_fallback tinyArrC7 (fun _ _ => false) 3 3 11 (some 5)).1, ?_⟩
  exact (claim_C7_mask_shape_fallback tinyArrC7 (fun _ _ => false) 3 3 11 (some 5)).2
    rfl 0 0

/-- C6 counterexample: the legacy NircamDestriper levels the amplifier quadrants of a subarray exposure even though subarray detection forced quadrants off.  On a subarray frame whose quadrant 0 sits at one and whose other quadrants sit at two, the legacy row median run returns one at a quadrant 1 pixel (the leveling shifted quadrants 1 to 3 down by one), while the same run with the leveling pass removed (what the claim asserts happens) returns the original two; the quadrant 0 pixel is untouched by both, showing the shift is a per quadrant operation. -/
theorem claim_C6_cex :
    dataC6.v 0 2 = .fin 2 ∧
    (runDestripingLegacyRowMedian 3 3 11 (some 20) false dataC6 dqZero).v 0 2 = .fin 1 ∧
    (runDestripingLegacyNoLevel 3 3 11 (some 20) false dataC6 dqZero).v 0 2 = .fin 2 ∧
    (runDestripingLegacyRowMedian 3 3 11 (some 20) false dataC6 dqZero).v 0 0 = .fin 1 := by
  refine ⟨by decide, by decide, by decide, by decide⟩

/-- C6 amended: in the pjpipe steps a detected subarray disables quadrant processing for the whole run regardless of the caller setting: the single tile driver behaves exactly as the destriping body with the quadrant flag forced off (so no leveling is applied: the working data stays the raw image data), and the multi tile step forces its per quadrant flag off likewise. -/
theorem claim_C6_amended {E : Type} (cfg : Cfg) (ex : ExtK E) (fr : Frame)
    (pf : Option String) (mcfg : MCfg) (h : fr.isSub = true) :
    parallelDestripe cfg ex fr pf = destripeWithQuadrants cfg ex fr pf false ∧
    destripeLeveled cfg fr = fr.data ∧
    multiTileEffQuadrants mcfg fr.isSub = false := by
  refine ⟨?_, ?_, ?_⟩
  · simp [parallelDestripe, h]
  · simp [destripeLeveled, h]
  · simp [multiTileEffQuadrants, h]

/-- C6 amended witness: the subarray frame runs exactly as the quadrant free body. -/
theorem claim_C6_amended_witness :
    parallelDestripe cfgC1 exUnit frC6sub none =
      destripeWithQuadrants cfgC1 exUnit frC6sub none false ∧
    destripeLeveled cfgC1 frC6sub = frC6sub.data ∧
    multiTileEffQuadrants mcfgC3 frC6sub.isSub = false :=
  claim_C6_amended cfgC1 exUnit frC6sub none mcfgC3 rfl

/-- C10 counterexample: the border pixel (0, 406) of the concrete 12 by 1544 full frame pca run was originally finite and nonzero, yet the corrected output there is the finite value zero, because the quadrant leveling shift of exactly minus one zeroed it and the sentinel restoration (which reads the leveled data) then pinned it to zero; the claim asserts every such border pixel becomes non finite.  The frame is wide and tall enough (at least 9 rows and 1541 columns) that every trimmed quadrant slice of the real pca loop is non empty, so the run completes without an error; the outcome does not depend on the external kernels, instantiated here by the trivial bundle. -/
theorem claim_C10_cex :
    frC10.data.v 0 406 = .fin 1 ∧
    (parallelDestripe cfgC10 exUnit frC10 none).1.v 0 406 = .fin 0 ∧
    ((parallelDestripe cfgC10 exUnit frC10 none).1.v 0 406).isFinite = true := by
  refine ⟨by decide, by decide, by decide⟩

theorem pyIdx_four {n : ℕ} (h : 8 ≤ n) : pyIdx 4 n = 4 := by
  unfold pyIdx
  rw [if_neg (by norm_num)]
  simp
  omega

theorem pyIdx_neg_four {n : ℕ} (h : 8 ≤ n) : pyIdx (-4) n = n - 4 := by
  unfold pyIdx
  rw [if_pos (by norm_num)]
  omega

theorem border_addSliceArr (a src : Arr) (i j H W : ℕ) (hH : a.h = H) (hW : a.w = W)
    (hh : 8 ≤ H) (hw : 8 ≤ W)
    (hb : i < 4 ∨ H - 4 ≤ i ∨ j < 4 ∨ W - 4 ≤ j) :
    (a.addSliceArr 4 (-4) 4 (-4) src).v i j = a.v i j := by
  subst hH
  subst hW
  unfold Arr.addSliceArr
  simp only [pyIdx_four hh, pyIdx_neg_four hh, pyIdx_four hw, pyIdx_neg_four hw]
  rw [if_neg]
  omega

theorem border_setSlice (a src : Arr) (i j H W : ℕ) (hH : a.h = H) (hW : a.w = W)
    (hh : 8 ≤ H) (hw : 8 ≤ W)
    (hb : i < 4 ∨ H - 4 ≤ i ∨ j < 4 ∨ W - 4 ≤ j) :
    (a.setSlice 4 (-4) 4 (-4) src).v i j = a.v i j := by
  subst hH
  subst hW
  unfold Arr.setSlice
  simp only [pyIdx_four hh, pyIdx_neg_four hh, pyIdx_four hw, pyIdx_neg_four hw]
  rw [if_neg]
  omega

theorem V.nan_add (x : V) : V.add .nan x = .nan := by
  cases x <;> rfl

theorem V.nan_sub (x : V) : V.sub .nan x = .nan := by
  cases x <;> rfl

theorem V.sub_nan_right (x : V) : V.sub x .nan = .nan := by
  cases x <;> rfl

theorem Arr.subScalar_v (a : Arr) (d : V) (i j : ℕ) :
    (a.subScalar d).v i j = V.sub (a.v i j) d := rfl

theorem Arr.constLike_v (a : Arr) (x : V) (i j : ℕ) : (a.constLike x).v i j = x := rfl

theorem pca_border_nan {E : Type} (cfg : Cfg) (ex : ExtK E) (fr : Frame) (prev : Arr)
    (pf : Option String) (q : Bool) {i j : ℕ}
    (hh : 8 ≤ fr.data.h) (hw : 8 ≤ fr.data.w)
    (hb : i < 4 ∨ fr.data.h - 4 ≤ i ∨ j < 4 ∨ fr.data.w - 4 ≤ j) :
    (runPcaDenoise cfg ex fr prev pf false q).v i j = V.nan := by
  unfold runPcaDenoise
  simp only [Bool.false_eq_true, if_false]
  cases q with
  | true =>
      simp only [if_true, Arr.subScalar_v]
      rw [border_setSlice _ _ i j fr.data.h fr.data.w (by rfl) (by rfl) hh hw hb]
      simp only [Arr.constLike_v, V.nan_sub]
  | false =>
      simp only [Bool.false_eq_true, if_false, Arr.subScalar_v]
      rw [border_setSlice _ _ i j fr.data.h fr.data.w (by rfl) (by rfl) hh hw hb]
      simp only [Arr.constLike_v, V.nan_sub]

theorem vertical_border_zero {E : Type} (cfg : Cfg) (ex : ExtK E) (fr : Frame) (prev : Arr)
    {i j : ℕ} (hsub : fr.isSub = false)
    (hh : 8 ≤ fr.data.h) (hw : 8 ≤ fr.data.w)
    (hb : i < 4 ∨ fr.data.h - 4 ≤ i ∨ j < 4 ∨ fr.data.w - 4 ≤ j) :
    (runVerticalSubtraction cfg ex fr prev).v i j = V.fin 0 := by
  unfold runVerticalSubtraction
  simp only [hsub, Bool.false_eq_true, if_false]
  rw [border_addSliceArr _ _ i j fr.data.h fr.data.w (by rfl) (by rfl) hh hw hb]
  simp only [Arr.constLike_v]

theorem levelBoundary_h (qs : ℕ) (m : Mask) (i : ℕ) (d : Arr) :
    (levelBoundary qs m i d).h = d.h := rfl

theorem levelBoundary_w (qs : ℕ) (m : Mask) (i : ℕ) (d : Arr) :
    (levelBoundary qs m i d).w = d.w := rfl

theorem levelData_h (fr : Frame) : (levelData fr).h = fr.data.h := by
  unfold levelData
  simp only [List.foldl, levelBoundary_h]

theorem levelData_w (fr : Frame) : (levelData fr).w = fr.data.w := by
  unfold levelData
  simp only [List.foldl, levelBoundary_w]

theorem V.add_nan (x : V) : V.add x .nan = .nan := by
  cases x <;> rfl

theorem V.isZero_false_of_ne (x : V) (h : x ≠ V.fin 0) : x.isZero = false := by
  cases x with
  | fin a =>
      simp only [V.isZero, decide_eq_false_iff_not]
      intro ha
      exact h (by rw [ha])
  | nan => rfl
  | pinf => rfl
  | ninf => rfl

theorem ifLevel_h (q : Bool) (fr : Frame) :
    (if q then levelData fr else fr.data).h = fr.data.h := by
  cases q <;> simp [levelData_h]

theorem ifLevel_w (q : Bool) (fr : Frame) :
    (if q then levelData fr else fr.data).w = fr.data.w := by
  cases q <;> simp [levelData_w]

/-- C10 amended: for a full frame exposure run with the pca method, the accumulated noise model is NaN on the whole four pixel reference border (for every choice of external kernels, caches and configuration), and every border science pixel whose working (post leveling) value is not exactly zero comes out non finite in the corrected output.  The counterexample shows the original claim fails exactly when the leveling shift lands a border pixel on zero.  The size hypotheses (at least 9 rows and 1541 columns) keep the statement inside the regime where the real pca loop completes: on a narrower or shorter frame some trimmed quadrant slice (the hard coded 1532 to 2040 one needs 1541 columns) is empty and numpy raises at the percentile normalisation, so the program produces no output there at all. -/
theorem claim_C10_amended {E : Type} (cfg : Cfg) (ex : ExtK E) (fr : Frame)
    (pf : Option String) (i j : ℕ)
    (hsub : fr.isSub = false) (hm : cfg.destripingMethod = "pca")
    (hh9 : 9 ≤ fr.data.h) (hw1541 : 1541 ≤ fr.data.w)
    (hb : i < 4 ∨ fr.data.h - 4 ≤ i ∨ j < 4 ∨ fr.data.w - 4 ≤ j)
    (hnz : (destripeLeveled cfg fr).v i j ≠ V.fin 0) :
    (parallelDestripe cfg ex fr pf).2.v i j = V.nan ∧
    ((parallelDestripe cfg ex fr pf).1.v i j).isFinite = false := by
  have hh : 8 ≤ fr.data.h := by omega
  have hw : 8 ≤ fr.data.w := by omega
  have hq : destripeLeveled cfg fr =
      (if (cfg.quadrants && !fr.isSub) then levelData fr else fr.data) := rfl
  rw [hq] at hnz
  rw [parallelDestripe]
  generalize (cfg.quadrants && !fr.isSub) = q at hnz
  unfold destripeWithQuadrants
  rw [hsub, hm]
  dsimp only
  rw [if_neg (show ¬("pca" : String) = "row_median" by decide)]
  rw [if_neg (show ¬("pca" : String) = "median_filter" by decide)]
  rw [if_neg (show ¬("pca" : String) = "remstripe" by decide)]
  rw [if_pos rfl]
  have hh1 : 8 ≤ (if q then levelData fr else fr.data).h := by
    rw [ifLevel_h]
    exact hh
  have hw1 : 8 ≤ (if q then levelData fr else fr.data).w := by
    rw [ifLevel_w]
    exact hw
  have hb1 : i < 4 ∨ (if q then levelData fr else fr.data).h - 4 ≤ i ∨ j < 4 ∨
      (if q then levelData fr else fr.data).w - 4 ≤ j := by
    rw [ifLevel_h, ifLevel_w]
    exact hb
  refine ⟨?_, ?_⟩
  · simp only [Arr.addA, Arr.map2]
    rw [pca_border_nan cfg ex ⟨(if q then levelData fr else fr.data), fr.err, fr.dq, false⟩
      _ pf q hh1 hw1 hb1]
    exact V.add_nan _
  · simp only [Arr.setWhere, Arr.subA, Arr.addA, Arr.map2]
    cases hxn : ((if q then levelData fr else fr.data).v i j).isNan with
    | true =>
        simp only [hxn, if_true]
        rfl
    | false =>
        simp only [hxn, Bool.false_eq_true, if_false,
          V.isZero_false_of_ne _ hnz]
        rw [pca_border_nan cfg ex ⟨(if q then levelData fr else fr.data), fr.err, fr.dq, false⟩
          _ pf q hh1 hw1 hb1]
        rw [V.add_nan, V.sub_nan]
        rfl

/-- C10 amended witness: at the untouched border pixel (0, 0) of the concrete 12 by 1544 frame the model is NaN and the corrected output is non finite. -/
theorem claim_C10_amended_witness :
    (parallelDestripe cfgC10 exUnit frC10 none).2.v 0 0 = V.nan ∧
    ((parallelDestripe cfgC10 exUnit frC10 none).1.v 0 0).isFinite = false :=
  claim_C10_amended cfgC10 exUnit frC10 none 0 0 rfl rfl (by decide) (by decide)
    (Or.inl (by decide)) (by decide)

/-- C2 counterexample: on the concrete two row exposure the row median stage returns a model whose rows are minus one and plus one after its recentring, yet the masked sigma clipped median of the model (excluding the original bad pixel mask, as the claim demands) is exactly one, far outside any floating point tolerance of zero: the recentring subtracts the plain median of the profile, which weights each row once, while the masked median weights rows by their unmasked pixel counts. -/
theorem claim_C2_cex :
    (clipStats2d 3 (some 20) c2model c2mask).med = V.fin 1 ∧
    ¬ nearZero ((clipStats2d 3 (some 20) c2model c2mask).med) (mkRat 1 1000) := by
  refine ⟨by decide, ?_⟩
  rintro ⟨qq, hq, _, hle⟩
  rw [show (clipStats2d 3 (some 20) c2model c2mask).med = V.fin 1 from by decide] at hq
  injection hq with h1
  rw [← h1] at hle
  exact absurd hle (by decide)

theorem clipStatsMasked_med_cases (sigma : ℚ) (it : Option ℕ) (l : List V) (m : List Bool) :
    (clipStatsMasked sigma it l m).med = V.nan ∨
      ∃ q, (clipStatsMasked sigma it l m).med = V.fin q := by
  unfold clipStatsMasked
  dsimp only
  split
  · exact Or.inl rfl
  · exact Or.inr ⟨_, rfl⟩

theorem filter_eq_map_finites (l : List V)
    (hfn : ∀ x ∈ l, x = V.nan ∨ ∃ q, x = V.fin q) :
    l.filter (fun x => !x.isNan) = (finites l).map V.fin := by
  induction l with
  | nil => rfl
  | cons a t ih =>
      rcases hfn a (List.mem_cons_self a t) with ha | ⟨q, ha⟩
      · subst ha
        simpa [finites, List.filter, V.isNan] using ih (fun x hx => hfn x (List.mem_cons_of_mem _ hx))
      · subst ha
        simpa [finites, List.filter, V.isNan] using ih (fun x hx => hfn x (List.mem_cons_of_mem _ hx))

theorem orderedInsert_map_fin (q : ℚ) (l : List ℚ) :
    List.orderedInsert (fun a b => V.sortLe a b) (V.fin q) (l.map V.fin) =
      (List.orderedInsert (fun a b => a ≤ b) q l).map V.fin := by
  induction l with
  | nil => rfl
  | cons b t ih =>
      simp only [List.map, List.orderedInsert]
      by_cases h : q ≤ b
      · rw [if_pos (by simp [V.sortLe, h]), if_pos h]
        rfl
      · rw [if_neg (by simp [V.sortLe, h]), if_neg h]
        simp only [List.map]
        rw [ih]

theorem sortV_map_fin (l : List ℚ) : sortV (l.map V.fin) = (sortQ l).map V.fin := by
  induction l with
  | nil => rfl
  | cons a t ih =>
      simp only [List.map, sortV, List.insertionSort] at *
      rw [ih]
      exact orderedInsert_map_fin a (List.insertionSort (fun a b => a ≤ b) t)

theorem getD_map_fin (s : List ℚ) (k : ℕ) (hk : k < s.length) :
    (s.map V.fin).getD k V.nan = V.fin (s.getD k 0) := by
  rw [List.getD_eq_getElem _ _ (by simpa using hk), List.getD_eq_getElem _ _ hk,
    List.getElem_map]

theorem medV_map_fin (l : List ℚ) (hne : l ≠ []) :
    medV (l.map V.fin) = V.fin (medQ l) := by
  have hlen : (sortQ l).length = l.length := by
    simp only [sortQ]
    exact (List.perm_insertionSort (fun a b => a ≤ b) l).length_eq
  have hne2 : l.length ≠ 0 := fun h => hne (List.length_eq_zero.mp h)
  unfold medV medQ
  rw [sortV_map_fin]
  simp only [List.length_map, hlen]
  rw [if_neg hne2, if_neg hne2]
  by_cases hodd : l.length % 2 = 1
  · rw [if_pos hodd, if_pos hodd]
    rw [getD_map_fin _ _ (by omega)]
  · rw [if_neg hodd, if_neg hodd]
    rw [getD_map_fin _ _ (by omega), getD_map_fin _ _ (by omega)]
    rfl

theorem finites_ne_nil (l : List V) (hex : ∃ x ∈ l, x.isFinite = true) :
    finites l ≠ [] := by
  rcases hex with ⟨x, hx, hfin⟩
  cases x with
  | fin q =>
      intro hcon
      have : q ∈ finites l := by
        simp only [finites, List.mem_filterMap]
        exact ⟨V.fin q, hx, rfl⟩
      rw [hcon] at this
      exact absurd this (List.not_mem_nil q)
  | nan => cases hfin
  | pinf => cases hfin
  | ninf => cases hfin

theorem nanmedianV_eq_medQ (l : List V)
    (hfn : ∀ x ∈ l, x = V.nan ∨ ∃ q, x = V.fin q)
    (hex : ∃ x ∈ l, x.isFinite = true) :
    nanmedianV l = V.fin (medQ (finites l)) := by
  unfold nanmedianV
  have h1 : l.filter (fun x => !x.isNan) = (finites l).map V.fin :=
    filter_eq_map_finites l hfn
  have h2 : l.filter (fun x => !V.isNan x) = (finites l).map V.fin := h1
  rw [h2]
  exact medV_map_fin _ (finites_ne_nil l hex)

theorem orderedInsert_map_add (c : ℚ) (q : ℚ) (l : List ℚ) :
    List.orderedInsert (fun a b => a ≤ b) (qadd q c) (l.map (fun a => qadd a c)) =
      (List.orderedInsert (fun a b => a ≤ b) q l).map (fun a => qadd a c) := by
  induction l with
  | nil => rfl
  | cons b t ih =>
      simp only [List.map, List.orderedInsert]
      by_cases h : q ≤ b
      · rw [if_pos (by rw [qadd_eq, qadd_eq]; exact add_le_add_right h c), if_pos h]
        rfl
      · rw [if_neg (by rw [qadd_eq, qadd_eq]; exact fun hc => h (le_of_add_le_add_right hc)),
          if_neg h]
        simp only [List.map]
        rw [ih]

theorem sortQ_map_add (c : ℚ) (l : List ℚ) :
    sortQ (l.map (fun a => qadd a c)) = (sortQ l).map (fun a => qadd a c) := by
  induction l with
  | nil => rfl
  | cons a t ih =>
      simp only [List.map, sortQ, List.insertionSort] at *
      rw [ih]
      exact orderedInsert_map_add c a (List.insertionSort (fun a b => a ≤ b) t)

theorem getD_map_add (c : ℚ) (s : List ℚ) (k : ℕ) (hk : k < s.length) :
    (s.map (fun a => qadd a c)).getD k 0 = qadd (s.getD k 0) c := by
  rw [List.getD_eq_getElem _ _ (by simpa using hk), List.getD_eq_getElem _ _ hk,
    List.getElem_map]

theorem medQ_map_add (c : ℚ) (l : List ℚ) (hne : l ≠ []) :
    medQ (l.map (fun a => qadd a c)) = qadd (medQ l) c := by
  have hlen : (sortQ l).length = l.length := by
    simp only [sortQ]
    exact (List.perm_insertionSort (fun a b => a ≤ b) l).length_eq
  have hne2 : l.length ≠ 0 := fun h => hne (List.length_eq_zero.mp h)
  unfold medQ
  rw [sortQ_map_add]
  simp only [List.length_map, hlen]
  rw [if_neg hne2, if_neg hne2]
  by_cases hodd : l.length % 2 = 1
  · rw [if_pos hodd, if_pos hodd]
    rw [getD_map_add _ _ _ (by omega)]
  · rw [if_neg hodd, if_neg hodd]
    rw [getD_map_add _ _ _ (by omega), getD_map_add _ _ _ (by omega)]
    rw [qadd_eq, qadd_eq, qadd_eq, qmul_eq, qmul_eq, qadd_eq, qadd_eq]
    have : (mkRat 1 2 : ℚ) = 1 / 2 := by norm_num [Rat.mkRat_eq_div]
    rw [this]
    ring

theorem finites_map_subfin (l : List V) (m : ℚ)
    (hfn : ∀ x ∈ l, x = V.nan ∨ ∃ q, x = V.fin q) :
    finites (l.map (fun x => V.sub x (V.fin m))) =
      (finites l).map (fun a => qadd a (-m)) := by
  induction l with
  | nil => rfl
  | cons a t ih =>
      rcases hfn a (List.mem_cons_self a t) with ha | ⟨q, ha⟩ <;> subst ha
      · simpa [finites, V.sub, V.neg, V.add]
          using ih (fun x hx => hfn x (List.mem_cons_of_mem _ hx))
      · simpa [finites, V.sub, V.neg, V.add]
          using ih (fun x hx => hfn x (List.mem_cons_of_mem _ hx))

theorem nanmedian_center_zero (l : List V)
    (hfn : ∀ x ∈ l, x = V.nan ∨ ∃ q, x = V.fin q)
    (hex : ∃ x ∈ l, x.isFinite = true) :
    nanmedianV (l.map (fun x => V.sub x (nanmedianV l))) = V.fin 0 := by
  have hm := nanmedianV_eq_medQ l hfn hex
  rw [hm]
  have hfn2 : ∀ y ∈ l.map (fun x => V.sub x (V.fin (medQ (finites l)))),
      y = V.nan ∨ ∃ q, y = V.fin q := by
    intro y hy
    rcases List.mem_map.mp hy with ⟨x, hx, hxy⟩
    rcases hfn x hx with hxn | ⟨q, hxq⟩
    · subst hxn
      exact Or.inl hxy.symm
    · subst hxq
      exact Or.inr ⟨_, hxy.symm⟩
  have hex2 : ∃ y ∈ l.map (fun x => V.sub x (V.fin (medQ (finites l)))),
      y.isFinite = true := by
    rcases hex with ⟨x, hx, hfin⟩
    cases x with
    | fin q =>
        refine ⟨V.fin (qadd q (-(medQ (finites l)))), List.mem_map.mpr ⟨V.fin q, hx, rfl⟩, rfl⟩
    | nan => cases hfin
    | pinf => cases hfin
    | ninf => cases hfin
  rw [nanmedianV_eq_medQ _ hfn2 hex2]
  rw [finites_map_subfin l _ hfn]
  rw [medQ_map_add _ _ (finites_ne_nil l hex)]
  rw [show ∀ a : ℚ, qadd a (-a) = 0 from fun a => by rw [qadd_eq]; ring]

theorem Arr.addColVec_v (a : Arr) (f : ℕ → V) (i j : ℕ) :
    (a.addColVec f).v i j = V.add (a.v i j) (f i) := rfl

/-- C2 amended: the row median stage recentres its summed component by subtracting the plain nanmedian of the per row clipped median profile: every model pixel equals the row profile value minus that plain median, and the recentred profile itself has plain nanmedian exactly zero (whenever any row median is finite).  The counterexample shows this recentring does not make the masked sigma clipped median of the model zero, and the median filter stage adds its per scale components with no recentring at all. -/
theorem claim_C2_amended {E : Type} (cfg : Cfg) (ex : ExtK E) (fr : Frame) (prev : Arr) :
    (∀ i j, (runRowMedian cfg ex fr prev false).v i j =
      V.sub (rowMedianProfile cfg ex fr prev i)
        (nanmedianV (rowMedianProfileList cfg ex fr prev))) ∧
    ((∃ x ∈ rowMedianProfileList cfg ex fr prev, x.isFinite = true) →
      nanmedianV ((rowMedianProfileList cfg ex fr prev).map
        (fun x => V.sub x (nanmedianV (rowMedianProfileList cfg ex fr prev)))) = V.fin 0) := by
  constructor
  · intro i j
    unfold runRowMedian rowMedianProfile rowMedianProfileList
    dsimp only
    rw [if_neg (by simp : ¬((false : Bool) = true))]
    rw [Arr.subScalar_v, Arr.addColVec_v, Arr.constLike_v, V.zero_add]
    rfl
  · intro hex
    apply nanmedian_center_zero
    · intro x hx
      rcases List.mem_map.mp hx with ⟨r, _, hr⟩
      rcases clipStatsMasked_med_cases cfg.sigma (some cfg.maxIters)
        ((rowMedianParts cfg ex fr prev).1.row r)
        (maskRow (rowMedianParts cfg ex fr prev).2 (rowMedianParts cfg ex fr prev).1.w r) with
        hc | ⟨q, hc⟩
      · exact Or.inl (by rw [← hr]; exact hc)
      · exact Or.inr ⟨q, by rw [← hr]; exact hc⟩
    · exact hex

/-- C2 amended witness: on the concrete exposure the profile is the finite pair five and seven, and the recentred profile has plain nanmedian exactly zero, while the model pixel values equal profile minus six. -/
theorem claim_C2_amended_witness :
    (runRowMedian cfgC2 exUnit frC2 (frC2.data.constLike (.fin 0)) false).v 0 0 =
      V.sub (rowMedianProfile cfgC2 exUnit frC2 (frC2.data.constLike (.fin 0)) 0)
        (nanmedianV (rowMedianProfileList cfgC2 exUnit frC2 (frC2.data.constLike (.fin 0)))) ∧
    nanmedianV ((rowMedianProfileList cfgC2 exUnit frC2 (frC2.data.constLike (.fin 0))).map
      (fun x => V.sub x
        (nanmedianV (rowMedianProfileList cfgC2 exUnit frC2 (frC2.data.constLike (.fin 0)))))) =
      V.fin 0 :=
  ⟨(claim_C2_amended cfgC2 exUnit frC2 (frC2.data.constLike (.fin 0))).1 0 0,
   (claim_C2_amended cfgC2 exUnit frC2 (frC2.data.constLike (.fin 0))).2 (by decide)⟩

theorem subsetStep_v (stack : List RSub) (sIdx : ℕ) (tgt : RSub)
    (validIdx : ℕ → ℕ → Bool) (npixFile : ℕ) (maf : ℚ) (acc : Arr × Arr) (idx r c : ℕ) :
    (subsetStep stack sIdx tgt validIdx npixFile maf acc idx).1.v r c =
      V.add (acc.1.v r c) (c3ContribData stack sIdx tgt validIdx npixFile maf idx r c) ∧
    (subsetStep stack sIdx tgt validIdx npixFile maf acc idx).2.v r c =
      V.add (acc.2.v r c) (c3ContribWeight stack sIdx tgt validIdx npixFile maf idx r c) := by
  by_cases h1 : idx = sIdx
  · simp [subsetStep, c3ContribData, c3ContribWeight, c3Qualifies, h1, V.add_zero]
  · cases hget : stack[idx]? with
    | none =>
        simp [subsetStep, c3ContribData, c3ContribWeight, c3Qualifies, h1, hget, V.add_zero]
    | some other =>
        by_cases h2 : rsubOverlaps tgt other
        · by_cases h3 : (diffVals tgt other).isEmpty
          · simp [subsetStep, c3ContribData, c3ContribWeight, c3Qualifies, h1, hget, h2, h3,
              V.add_zero]
          · by_cases h4 : c3AreaFrac tgt other validIdx npixFile < maf
            · simp [subsetStep, c3ContribData, c3ContribWeight, c3Qualifies, h1, hget, h2, h3,
                h4, V.add_zero]
            · simp [subsetStep, c3ContribData, c3ContribWeight, c3Qualifies, h1, hget, h2, h3,
                h4, V.add_zero, Arr.addA, Arr.map2]
        · simp [subsetStep, c3ContribData, c3ContribWeight, c3Qualifies, h1, hget, h2, V.add_zero]

theorem foldl_subsetStep_v (stack : List RSub) (sIdx : ℕ) (tgt : RSub)
    (validIdx : ℕ → ℕ → Bool) (npixFile : ℕ) (maf : ℚ) (L : List ℕ) (acc : Arr × Arr)
    (r c : ℕ) :
    ((L.foldl (subsetStep stack sIdx tgt validIdx npixFile maf) acc).1.v r c =
      L.foldl (fun x idx => V.add x
        (c3ContribData stack sIdx tgt validIdx npixFile maf idx r c)) (acc.1.v r c)) ∧
    ((L.foldl (subsetStep stack sIdx tgt validIdx npixFile maf) acc).2.v r c =
      L.foldl (fun x idx => V.add x
        (c3ContribWeight stack sIdx tgt validIdx npixFile maf idx r c)) (acc.2.v r c)) := by
  induction L generalizing acc with
  | nil => exact ⟨rfl, rfl⟩
  | cons a t ih =>
      simp only [List.foldl_cons]
      constructor
      · rw [(ih (subsetStep stack sIdx tgt validIdx npixFile maf acc a)).1,
          (subsetStep_v stack sIdx tgt validIdx npixFile maf acc a r c).1]
      · rw [(ih (subsetStep stack sIdx tgt validIdx npixFile maf acc a)).2,
          (subsetStep_v stack sIdx tgt validIdx npixFile maf acc a r c).2]

/-- C3 counterexample: on a two exposure stack whose tiles do not overlap, the reference image the code builds for the first exposure equals its own data (value two), whereas a reference built only from the other overlapping exposures would be empty, hence NaN after the zero to NaN replacement: the exposure under correction does contribute to its own reference. -/
theorem claim_C3_cex :
    (createSubsetReproj mcfgC3 stackC3 0).v 0 0 = V.fin 2 ∧
    (otherOnlyRefSpec mcfgC3 stackC3 0).v 0 0 = V.nan := by decide

/-- C3 amended: the local reference image of create_subset_reproj_image is the weighted mean whose numerator starts from the weighted data of the exposure under correction itself and then accumulates the weighted level shifted contributions of the qualifying other exposures, with exact zeros of the average set to NaN; and any other exposure whose valid overlap fraction of the target footprint is below the minimum area fraction contributes exactly zero to both sums. -/
theorem claim_C3_amended (mcfg : MCfg) (stack : List RSub) (sIdx : ℕ) (tgt : RSub)
    (hs : stack.get? sIdx = some tgt) (r c : ℕ) :
    ((createSubsetReproj mcfg stack sIdx).v r c =
      (let num := (List.range stack.length).foldl (fun x idx => V.add x
        (c3ContribData stack sIdx tgt (c3ValidIdx tgt) (c3NpixFile tgt)
          mcfg.minAreaFrac idx r c)) ((c3Data0 tgt).v r c);
      let den := (List.range stack.length).foldl (fun x idx => V.add x
        (c3ContribWeight stack sIdx tgt (c3ValidIdx tgt) (c3NpixFile tgt)
          mcfg.minAreaFrac idx r c)) ((c3Weights0 tgt).v r c);
      if (V.div num den).isZero then V.nan else V.div num den)) ∧
    (∀ idx other, stack.get? idx = some other →
      c3AreaFrac tgt other (c3ValidIdx tgt) (c3NpixFile tgt) < mcfg.minAreaFrac →
      c3ContribData stack sIdx tgt (c3ValidIdx tgt) (c3NpixFile tgt)
        mcfg.minAreaFrac idx r c = V.fin 0 ∧
      c3ContribWeight stack sIdx tgt (c3ValidIdx tgt) (c3NpixFile tgt)
        mcfg.minAreaFrac idx r c = V.fin 0) := by
  constructor
  · unfold createSubsetReproj
    rw [hs]
    dsimp only
    rw [Arr.setWhere, Arr.map2]
    dsimp only
    rw [(foldl_subsetStep_v stack sIdx tgt (c3ValidIdx tgt) (c3NpixFile tgt)
        mcfg.minAreaFrac (List.range stack.length) (c3Data0 tgt, c3Weights0 tgt) r c).1,
      (foldl_subsetStep_v stack sIdx tgt (c3ValidIdx tgt) (c3NpixFile tgt)
        mcfg.minAreaFrac (List.range stack.length) (c3Data0 tgt, c3Weights0 tgt) r c).2]
  · intro idx other hget hlt
    have hq : c3Qualifies stack sIdx tgt (c3ValidIdx tgt) (c3NpixFile tgt)
        mcfg.minAreaFrac idx = false := by
      unfold c3Qualifies
      by_cases h1 : idx = sIdx
      · simp [h1]
      · rw [if_neg h1, hget]
        by_cases h2 : rsubOverlaps tgt other
        · by_cases h3 : (diffVals tgt other).isEmpty
          · simp [h2, h3]
          · simp [h2, h3, hlt]
        · simp [h2]
    simp [c3ContribData, c3ContribWeight, hq]

/-- C3 amended witness: the characterization evaluated at the concrete two exposure stack, pixel zero of the first exposure. -/
theorem claim_C3_amended_witness :
    (createSubsetReproj mcfgC3 stackC3 0).v 0 0 =
      (let num := (List.range stackC3.length).foldl (fun x idx => V.add x
        (c3ContribData stackC3 0 rsubA (c3ValidIdx rsubA) (c3NpixFile rsubA)
          mcfgC3.minAreaFrac idx 0 0)) ((c3Data0 rsubA).v 0 0);
      let den := (List.range stackC3.length).foldl (fun x idx => V.add x
        (c3ContribWeight stackC3 0 rsubA (c3ValidIdx rsubA) (c3NpixFile rsubA)
          mcfgC3.minAreaFrac idx 0 0)) ((c3Weights0 rsubA).v 0 0);
      if (V.div num den).isZero then V.nan else V.div num den) :=
  (claim_C3_amended mcfgC3 stackC3 0 rsubA (by rfl) 0 0).1

theorem pcaNCols_le (mask : Mask) (hgt wid : ℕ) : pcaNCols mask hgt wid ≤ wid := by
  unfold pcaNCols
  dsimp only
  apply max_le
  · exact le_trans (List.length_filter_le _ _) (by simp)
  · exact Nat.div_le_self _ _

theorem argsortIdx_perm (key : ℕ → ℕ) (w : ℕ) :
    (argsortIdx key w).Perm (List.range w) := List.perm_insertionSort _ _

theorem argsortIdx_length (key : ℕ → ℕ) (w : ℕ) : (argsortIdx key w).length = w := by
  rw [(argsortIdx_perm key w).length_eq, List.length_range]

theorem argsortIdx_sorted (key : ℕ → ℕ) (w : ℕ) :
    (argsortIdx key w).Sorted (argsortRel key) := List.sorted_insertionSort _ _

theorem pcaSelIdx_length (mask : Mask) (hgt wid : ℕ) :
    (pcaSelIdx mask hgt wid).length = pcaNCols mask hgt wid := by
  unfold pcaSelIdx
  rw [List.length_take, argsortIdx_length]
  exact min_eq_left (pcaNCols_le mask hgt wid)

theorem filterMap_getq_range {α : Type} (l : List α) :
    (List.range l.length).filterMap (fun k => l.get? k) = l := by
  induction l with
  | nil => rfl
  | cons a t ih =>
      rw [List.length_cons, List.range_succ_eq_map, List.filterMap_cons]
      simp only [List.get?_cons_zero, List.filterMap_map]
      have hf : ((fun k => (a :: t).get? k) ∘ Nat.succ) = (fun k => t.get? k) := by
        funext k
        rfl
      rw [hf, ih]

theorem gatherCols_perm (cols : List (List V)) (perm : List ℕ)
    (hp : perm.Perm (List.range cols.length)) : (gatherCols perm cols).Perm cols := by
  unfold gatherCols
  have h1 : (perm.filterMap (fun k => cols.get? k)).Perm
      ((List.range cols.length).filterMap (fun k => cols.get? k)) := hp.filterMap _
  rw [filterMap_getq_range cols] at h1
  exact h1

/-- C8: in fit_robust_pca the training set is exactly the pcaNCols lowest mask coverage columns (the count of columns with mask fraction below one quarter, floored at half of all columns): the selection has exactly that length, every selected column index is in range and has mask coverage no greater than any unselected column, the shuffled training set is a permutation of the selected columns followed by their circular roll along the sample axis, and the factorization receives exactly these shuffled columns. -/
theorem claim_C8 {E : Type} (cfg : Cfg) (ex : ExtK E) (data err : Arr) (mask : Mask)
    (hperm : ex.shufflePerm.Perm (List.range (2 * pcaNCols mask data.h data.w))) :
    (pcaSelIdx mask data.h data.w).length = pcaNCols mask data.h data.w ∧
    (∀ a ∈ pcaSelIdx mask data.h data.w, a < data.w) ∧
    (∀ a ∈ pcaSelIdx mask data.h data.w, ∀ b, b < data.w →
      b ∉ pcaSelIdx mask data.h data.w →
      maskSumCol mask data.h a ≤ maskSumCol mask data.h b) ∧
    (pcaTrainCols data mask ex.rollShifts ex.shufflePerm).Perm
      ((pcaSelIdx mask data.h data.w).map (fun c => data.col c) ++
       ((pcaSelIdx mask data.h data.w).map (fun c => data.col c)).map
         (rollBy ((ex.rollShifts.take data.w).foldl (fun a b => a + b) 0))) ∧
    fitRobustPca cfg ex data err mask =
      ex.vwRun cfg.pcaComponents (pcaTrainCols data mask ex.rollShifts ex.shufflePerm)
        (pcaTrainCols err mask ex.rollShifts ex.shufflePerm) := by
  refine ⟨pcaSelIdx_length mask data.h data.w, ?_, ?_, ?_, rfl⟩
  · intro a ha
    have haL : a ∈ argsortIdx (fun c => maskSumCol mask data.h c) data.w :=
      List.mem_of_mem_take ha
    exact List.mem_range.mp
      ((argsortIdx_perm (fun c => maskSumCol mask data.h c) data.w).mem_iff.mp haL)
  · intro a ha b hbw hbn
    have hsort := argsortIdx_sorted (fun c => maskSumCol mask data.h c) data.w
    have hbL : b ∈ argsortIdx (fun c => maskSumCol mask data.h c) data.w :=
      (argsortIdx_perm (fun c => maskSumCol mask data.h c) data.w).mem_iff.mpr
        (List.mem_range.mpr hbw)
    have hbd : b ∈ (argsortIdx (fun c => maskSumCol mask data.h c) data.w).drop
        (pcaNCols mask data.h data.w) := by
      rcases List.mem_append.mp (by
        rw [List.take_append_drop]
        exact hbL :
          b ∈ (argsortIdx (fun c => maskSumCol mask data.h c) data.w).take
              (pcaNCols mask data.h data.w) ++
            (argsortIdx (fun c => maskSumCol mask data.h c) data.w).drop
              (pcaNCols mask data.h data.w)) with h | h
      · exact absurd h hbn
      · exact h
    have hpw : argsortRel (fun c => maskSumCol mask data.h c) a b := by
      have h := hsort
      rw [← List.take_append_drop (pcaNCols mask data.h data.w)
        (argsortIdx (fun c => maskSumCol mask data.h c) data.w)] at h
      exact (List.pairwise_append.mp h).2.2 a ha b hbd
    rcases hpw with h | ⟨h, _⟩
    · exact le_of_lt h
    · exact le_of_eq h
  · unfold pcaTrainCols
    dsimp only
    apply gatherCols_perm
    have hlen : ((pcaSelIdx mask data.h data.w).map (fun c => data.col c) ++
        ((pcaSelIdx mask data.h data.w).map (fun c => data.col c)).map
          (rollBy ((ex.rollShifts.take data.w).foldl (fun a b => a + b) 0))).length =
        2 * pcaNCols mask data.h data.w := by
      rw [List.length_append, List.length_map, List.length_map, List.length_map,
        pcaSelIdx_length]
      ring
    rw [hlen]
    exact hperm

/-- C8 witness: on the concrete two by four data with columns one and three fully masked the selection length equals pcaNCols. -/
theorem claim_C8_witness :
    (pcaSelIdx maskC8 dataC8.h dataC8.w).length = pcaNCols maskC8 dataC8.h dataC8.w :=
  (claim_C8 cfgC1 exC8 dataC8 dataC8 maskC8 (by decide)).1

theorem pyIdx_natCast (n w : ℕ) : pyIdx (n : ℤ) w = min n w := by
  unfold pyIdx
  split <;> omega

theorem pyIdx_sub20 (qs : ℕ) (h20 : 20 ≤ qs) : pyIdx ((qs : ℤ) - 20) qs = qs - 20 := by
  unfold pyIdx
  split <;> omega

theorem nanmedian_mask_map_eq (cs : List ℕ) (p : ℕ → Bool) (v : ℕ → V) :
    nanmedianV (cs.filterMap (fun c => if p c then none else some (v c))) =
    nanmedianV (cs.map (fun c => if p c then V.nan else v c)) := by
  unfold nanmedianV
  congr 1
  induction cs with
  | nil => rfl
  | cons a t ih =>
      by_cases h : p a
      · rw [List.filterMap_cons, List.map_cons, if_pos h, if_pos h, List.filter_cons,
          if_neg (by decide : ¬((!V.nan.isNan) = true))]
        exact ih
      · rw [List.filterMap_cons, List.map_cons, if_neg h, if_neg h, List.filter_cons,
          List.filter_cons, ih]

theorem lbPoint_eq_base (dqMask : Mask) (qs i : ℕ) (d : Arr) (r c : ℕ) :
    (if dqMask r c ∧ (inStripLast20 qs i c ∨ inStripFirst20 qs i c) then V.nan else d.v r c) =
      lbPoint dqMask qs i d r c := by
  by_cases h1 : dqMask r c <;>
    by_cases h2 : (i + 1) * qs - 20 ≤ c <;>
    by_cases h3 : c < (i + 1) * qs <;>
    by_cases h4 : (i + 1) * qs ≤ c <;>
    by_cases h5 : c < (i + 1) * qs + 20 <;>
    simp [lbPoint, lbStrip1, lbStrip2, inStripLast20, inStripFirst20, h1, h2, h3, h4, h5]

theorem specFilter1_eq (qs i w : ℕ) :
    (List.range w).filter (fun c => decide (inStripLast20 qs i c)) =
      (List.range w).filter (fun c => lbStrip1 qs i c) := by
  apply List.filter_congr
  intro c _
  by_cases h2 : (i + 1) * qs - 20 ≤ c <;> by_cases h3 : c < (i + 1) * qs <;>
    simp [lbStrip1, inStripLast20, h2, h3]

theorem specFilter2_eq (qs i w : ℕ) :
    (List.range w).filter (fun c => decide (inStripFirst20 qs i c)) =
      (List.range w).filter (fun c => lbStrip2 qs i c) := by
  apply List.filter_congr
  intro c _
  by_cases h4 : (i + 1) * qs ≤ c <;> by_cases h5 : c < (i + 1) * qs + 20 <;>
    simp [lbStrip2, inStripFirst20, h4, h5]

theorem specMed1_eq (dqMask : Mask) (qs i : ℕ) (d : Arr) (r : ℕ) :
    nanmedianV (((List.range d.w).filter (fun c => decide (inStripLast20 qs i c))).filterMap
      (fun c => if dqMask r c then none else some (d.v r c))) =
    nanmedianV (((List.range d.w).filter (fun c => lbStrip1 qs i c)).map
      (fun c => lbPoint dqMask qs i d r c)) := by
  rw [specFilter1_eq, nanmedian_mask_map_eq]
  congr 1
  apply List.map_congr_left
  intro c hc
  have hs : lbStrip1 qs i c = true := (List.mem_filter.mp hc).2
  simp [lbPoint, hs]

theorem specMed2_eq (dqMask : Mask) (qs i : ℕ) (d : Arr) (r : ℕ) :
    nanmedianV (((List.range d.w).filter (fun c => decide (inStripFirst20 qs i c))).filterMap
      (fun c => if dqMask r c then none else some (d.v r c))) =
    nanmedianV (((List.range d.w).filter (fun c => lbStrip2 qs i c)).map
      (fun c => lbPoint dqMask qs i d r c)) := by
  rw [specFilter2_eq, nanmedian_mask_map_eq]
  congr 1
  apply List.map_congr_left
  intro c hc
  have hs : lbStrip2 qs i c = true := (List.mem_filter.mp hc).2
  simp [lbPoint, hs]

theorem levelShiftSpec_eq_lbDelta (dqMask : Mask) (qs i : ℕ) (d : Arr) :
    levelShiftSpec dqMask qs i d = lbDelta dqMask qs i d := by
  unfold levelShiftSpec lbDelta
  dsimp only
  congr 2
  apply List.map_congr_left
  intro r _
  rw [specMed1_eq, specMed2_eq]

theorem levelBoundarySpec_v_resolved (dqMask : Mask) (qs i : ℕ) (d : Arr) (r c : ℕ) :
    (levelBoundarySpec dqMask qs i d).v r c =
      if (i + 1) * qs ≤ c ∧ c < (i + 2) * qs
      then V.add (lbPoint dqMask qs i d r c) (lbDelta dqMask qs i d)
      else lbPoint dqMask qs i d r c := by
  unfold levelBoundarySpec
  dsimp only
  rw [levelShiftSpec_eq_lbDelta, lbPoint_eq_base]
  by_cases hq : (i + 1) * qs ≤ c ∧ c < (i + 2) * qs
  · rw [if_pos hq, if_pos (show inQuadCol qs (i + 1) c from ⟨hq.1, hq.2⟩)]
  · rw [if_neg hq, if_neg (show ¬inQuadCol qs (i + 1) c from fun h => hq ⟨h.1, h.2⟩)]

theorem levelBoundary_v_resolved (qs i : ℕ) (dqMask : Mask) (d : Arr)
    (h20 : 20 ≤ qs) (hiw : (i + 2) * qs ≤ d.w) (r c : ℕ) :
    (levelBoundary qs dqMask i d).v r c =
      if r < d.h ∧ (i + 1) * qs ≤ c ∧ c < (i + 2) * qs
      then V.add (lbPoint dqMask qs i d r c) (lbDelta dqMask qs i d)
      else lbPoint dqMask qs i d r c := by
  have hm1 : (i + 1) * qs = i * qs + qs := by ring
  have hm2 : (i + 2) * qs = i * qs + qs + qs := by ring
  have e1 : pyIdx ((i : ℤ) * (qs : ℤ)) d.w = i * qs := by
    rw [show ((i : ℤ) * (qs : ℤ)) = (((i * qs : ℕ) : ℤ)) by push_cast; ring, pyIdx_natCast]
    omega
  have e2 : pyIdx (((i : ℤ) + 1) * (qs : ℤ)) d.w = (i + 1) * qs := by
    rw [show (((i : ℤ) + 1) * (qs : ℤ)) = ((((i + 1) * qs : ℕ) : ℤ)) by push_cast; ring,
      pyIdx_natCast]
    omega
  have e3 : pyIdx (((i : ℤ) + 2) * (qs : ℤ)) d.w = (i + 2) * qs := by
    rw [show (((i : ℤ) + 2) * (qs : ℤ)) = ((((i + 2) * qs : ℕ) : ℤ)) by push_cast; ring,
      pyIdx_natCast]
    omega
  have e12 : max (i * qs) ((i + 1) * qs) = (i + 1) * qs := max_eq_right (by omega)
  have e11 : max ((i + 1) * qs) ((i + 2) * qs) = (i + 2) * qs := max_eq_right (by omega)
  have e4 : (i + 1) * qs - i * qs = qs := by omega
  have e6 : (i + 2) * qs - (i + 1) * qs = qs := by omega
  have e5 : pyIdx ((qs : ℤ) - 20) qs = qs - 20 := pyIdx_sub20 qs h20
  have e10 : i * qs + (qs - 20) = (i + 1) * qs - 20 := by omega
  have e7 : min 20 qs = 20 := min_eq_left h20
  have e8 : pyIdx (0 : ℤ) d.h = 0 := by
    unfold pyIdx
    split <;> omega
  have e9 : pyIdx ((d.h : ℕ) : ℤ) d.h = d.h := by
    rw [pyIdx_natCast]
    omega
  unfold levelBoundary
  dsimp only
  unfold Arr.addScalarSlice Arr.setWhere
  dsimp only
  simp only [e1, e2, e3, e12, e11, e4, e6, e5, e10, e7, e8, e9, Nat.zero_max]
  have hX : ∀ rr cc : ℕ,
      (if ((dqMask rr cc && decide ((i + 1) * qs ≤ cc)) && decide (cc < (i + 1) * qs + 20))
          = true then V.nan
       else if ((dqMask rr cc && decide ((i + 1) * qs - 20 ≤ cc)) && decide (cc < (i + 1) * qs))
          = true then V.nan
       else d.v rr cc) = lbPoint dqMask qs i d rr cc := by
    intro rr cc
    by_cases h1 : dqMask rr cc <;>
      by_cases h2 : (i + 1) * qs - 20 ≤ cc <;>
      by_cases h3 : cc < (i + 1) * qs <;>
      by_cases h4 : (i + 1) * qs ≤ cc <;>
      by_cases h5 : cc < (i + 1) * qs + 20 <;>
      simp [lbPoint, lbStrip1, lbStrip2, h1, h2, h3, h4, h5]
  simp only [hX]
  have hF1 : (fun cc => decide ((i + 1) * qs - 20 ≤ cc) && decide (cc < (i + 1) * qs)) =
      fun cc => lbStrip1 qs i cc := by
    funext cc
    rfl
  have hF2 : (fun cc => decide ((i + 1) * qs ≤ cc) && decide (cc < (i + 1) * qs + 20)) =
      fun cc => lbStrip2 qs i cc := by
    funext cc
    rfl
  simp only [hF1, hF2]
  by_cases hcond : r < d.h ∧ (i + 1) * qs ≤ c ∧ c < (i + 2) * qs
  · rw [if_pos (show 0 ≤ r ∧ r < d.h ∧ (i + 1) * qs ≤ c ∧ c < (i + 2) * qs from
      ⟨Nat.zero_le r, hcond⟩), if_pos hcond]
    rfl
  · rw [if_neg (show ¬(0 ≤ r ∧ r < d.h ∧ (i + 1) * qs ≤ c ∧ c < (i + 2) * qs) from
      fun h => hcond h.2), if_neg hcond]

theorem levelBoundarySpec_h (m : Mask) (qs i : ℕ) (d : Arr) :
    (levelBoundarySpec m qs i d).h = d.h := rfl

theorem levelBoundarySpec_w (m : Mask) (qs i : ℕ) (d : Arr) :
    (levelBoundarySpec m qs i d).w = d.w := rfl

theorem lbDelta_congr (dqMask : Mask) (qs i : ℕ) (d1 d2 : Arr)
    (hh : d1.h = d2.h) (hw : d1.w = d2.w)
    (hv : ∀ r, r < d1.h → ∀ c, d1.v r c = d2.v r c) :
    lbDelta dqMask qs i d1 = lbDelta dqMask qs i d2 := by
  unfold lbDelta
  rw [← hh, ← hw]
  congr 2
  apply List.map_congr_left
  intro rr hrr
  have hr1 : rr < d1.h := List.mem_range.mp hrr
  have hp : ∀ cc, lbPoint dqMask qs i d1 rr cc = lbPoint dqMask qs i d2 rr cc := by
    intro cc
    unfold lbPoint
    rw [hv rr hr1 cc]
  simp only [hp]

theorem levelBoundary_bridge (qs i : ℕ) (dqMask : Mask) (d1 d2 : Arr)
    (h20 : 20 ≤ qs) (hiw : (i + 2) * qs ≤ d1.w)
    (hh : d1.h = d2.h) (hw : d1.w = d2.w)
    (hv : ∀ r, r < d1.h → ∀ c, d1.v r c = d2.v r c) :
    (levelBoundary qs dqMask i d1).h = (levelBoundarySpec dqMask qs i d2).h ∧
    (levelBoundary qs dqMask i d1).w = (levelBoundarySpec dqMask qs i d2).w ∧
    (∀ r, r < (levelBoundary qs dqMask i d1).h → ∀ c,
      (levelBoundary qs dqMask i d1).v r c = (levelBoundarySpec dqMask qs i d2).v r c) := by
  refine ⟨by rw [levelBoundary_h, levelBoundarySpec_h, hh], by
    rw [levelBoundary_w, levelBoundarySpec_w, hw], ?_⟩
  intro r hr c
  rw [levelBoundary_h] at hr
  rw [levelBoundary_v_resolved qs i dqMask d1 h20 hiw r c,
    levelBoundarySpec_v_resolved dqMask qs i d2 r c]
  have hpt : lbPoint dqMask qs i d1 r c = lbPoint dqMask qs i d2 r c := by
    unfold lbPoint
    rw [hv r hr c]
  have hdel : lbDelta dqMask qs i d1 = lbDelta dqMask qs i d2 := lbDelta_congr dqMask qs i d1 d2 hh hw hv
  by_cases hc2 : (i + 1) * qs ≤ c ∧ c < (i + 2) * qs
  · rw [if_pos ⟨hr, hc2⟩, if_pos hc2, hpt, hdel]
  · rw [if_neg (fun h => hc2 h.2), if_neg hc2, hpt]

set_option maxHeartbeats 2000000

/-- C5: the quadrant leveler of level_data processes the three internal boundaries left to right over the running data (so shifts compound); at boundary i it compares the last 20 columns of quadrant i with the first 20 columns of quadrant i plus one, excludes flagged pixels from the comparison (they are set to NaN and dropped by the nanmedian), and adds the clipped median difference to every pixel of quadrant i plus one: on every in range pixel the code agrees with the claim side description levelDataSpec, provided a quadrant is at least 20 columns wide. -/
theorem claim_C5 (fr : Frame) (h20 : 20 ≤ fr.data.w / 4) :
    ∀ r, r < fr.data.h → ∀ c, (levelData fr).v r c = (levelDataSpec fr).v r c := by
  unfold levelData levelDataSpec
  dsimp only
  simp only [List.foldl_cons, List.foldl_nil]
  have hiw : ∀ k, k ≤ 2 → (k + 2) * (fr.data.w / 4) ≤ fr.data.w := by
    intro k hk
    have h4 : 4 * (fr.data.w / 4) ≤ fr.data.w := by omega
    have hk4 : (k + 2) * (fr.data.w / 4) ≤ 4 * (fr.data.w / 4) :=
      Nat.mul_le_mul_right _ (by omega)
    omega
  have hb0 := levelBoundary_bridge (fr.data.w / 4) 0 (getDqMask fr.data fr.err fr.dq)
    fr.data fr.data h20 (hiw 0 (by omega)) rfl rfl (fun r _ c => rfl)
  have hw1 : (levelBoundary (fr.data.w / 4) (getDqMask fr.data fr.err fr.dq) 0 fr.data).w =
      fr.data.w := levelBoundary_w _ _ _ _
  have hb1 := levelBoundary_bridge (fr.data.w / 4) 1 (getDqMask fr.data fr.err fr.dq)
    (levelBoundary (fr.data.w / 4) (getDqMask fr.data fr.err fr.dq) 0 fr.data)
    (levelBoundarySpec (getDqMask fr.data fr.err fr.dq) (fr.data.w / 4) 0 fr.data)
    h20 (by rw [hw1]; exact hiw 1 (by omega)) hb0.1 hb0.2.1 hb0.2.2
  have hw2 : (levelBoundary (fr.data.w / 4) (getDqMask fr.data fr.err fr.dq) 1
      (levelBoundary (fr.data.w / 4) (getDqMask fr.data fr.err fr.dq) 0 fr.data)).w =
      fr.data.w := by rw [levelBoundary_w, hw1]
  have hb2 := levelBoundary_bridge (fr.data.w / 4) 2 (getDqMask fr.data fr.err fr.dq)
    (levelBoundary (fr.data.w / 4) (getDqMask fr.data fr.err fr.dq) 1
      (levelBoundary (fr.data.w / 4) (getDqMask fr.data fr.err fr.dq) 0 fr.data))
    (levelBoundarySpec (getDqMask fr.data fr.err fr.dq) (fr.data.w / 4) 1
      (levelBoundarySpec (getDqMask fr.data fr.err fr.dq) (fr.data.w / 4) 0 fr.data))
    h20 (by rw [hw2]; exact hiw 2 le_rfl) hb1.1 hb1.2.1 hb1.2.2
  intro r hr c
  exact hb2.2.2 r hr c

set_option maxHeartbeats 400000

/-- C5 witness: the agreement evaluated on the concrete one row, eighty column frame at pixel zero. -/
theorem claim_C5_witness :
    (levelData frC5).v 0 0 = (levelDataSpec frC5).v 0 0 :=
  claim_C5 frC5 (by decide) 0 (by decide) 0
